import Mathlib

/-!
# Verification of the byo-storage channel sync engine

Shallow embedding of the core of the `@graffiti-garden/byo-storage`
library: the crypto/addressing helpers (`src/util.ts`), the optimistic
sync engine (`index.ts`: `update`, `delete`, `getPublicKey`,
`subscribe`) and the Dropbox change-feed iterator
(`src/dropbox.ts`: `listFiles`).

Bytes (`Uint8Array` values) are modelled as `List Nat`; a genuine JS
byte array holds values `0–255`.  External cryptographic primitives
from the noble libraries (`sha256`, `xchacha20poly1305`) are modelled
as ideal executable functions: hashing is an injective encoding of the
input, the stream cipher is XOR with a keystream determined by key and
nonce, and the Poly1305 tag is a perfect MAC (determined by, and
injective in, key, nonce and ciphertext).  The surrounding code —
nonce prepending, slicing, error mapping — is translated directly from
the source.
-/

namespace ByoStorage

/-- Injective positional encoding of a list of naturals (all below
`2 ^ 33 - 1`) into a single natural.  Used to model the one-way
primitives supplied by the external noble crypto libraries; both byte
values (< 256) and Lean `Char` codepoints (< 2 ^ 32) fit the digit
bound. -/
def encodeList : List Nat → Nat
  | [] => 0
  | b :: bs => (b + 1) + 2 ^ 33 * encodeList bs

theorem encodeList_inj : ∀ {l₁ l₂ : List Nat},
    (∀ x ∈ l₁, x < 2 ^ 33 - 1) → (∀ x ∈ l₂, x < 2 ^ 33 - 1) →
    encodeList l₁ = encodeList l₂ → l₁ = l₂
  | [], [], _, _, _ => rfl
  | [], b :: bs, _, h₂, h => by
    exfalso
    simp only [encodeList] at h
    omega
  | a :: as, [], h₁, _, h => by
    exfalso
    simp only [encodeList] at h
    omega
  | a :: as, b :: bs, h₁, h₂, h => by
    simp only [encodeList] at h
    have ha : a < 2 ^ 33 - 1 := h₁ a (by simp)
    have hb : b < 2 ^ 33 - 1 := h₂ b (by simp)
    have hab : a = b := by omega
    have htl : encodeList as = encodeList bs := by omega
    have := encodeList_inj (fun x hx => h₁ x (by simp [hx]))
      (fun x hx => h₂ x (by simp [hx])) htl
    rw [hab, this]

/-- Model of the external `sha256` hash on strings (noble's `sha256`
accepts a string and hashes its UTF-8 bytes): an injective function
from strings to naturals, standing in for the collision-free hash. -/
def sha256Model (s : String) : Nat :=
  encodeList (s.data.map Char.toNat)

theorem char_toNat_lt (c : Char) : c.toNat < 2 ^ 33 - 1 := by
  have h := c.val.val.isLt
  have : UInt32.size = 4294967296 := rfl
  simp only [Char.toNat, UInt32.toNat] at *
  omega

theorem sha256Model_injective : Function.Injective sha256Model := by
  intro s₁ s₂ h
  have hd : s₁.data.map Char.toNat = s₂.data.map Char.toNat :=
    encodeList_inj
      (by intro x hx; obtain ⟨c, _, rfl⟩ := List.mem_map.mp hx; exact char_toNat_lt c)
      (by intro x hx; obtain ⟨c, _, rfl⟩ := List.mem_map.mp hx; exact char_toNat_lt c)
      h
  have hinj : Function.Injective Char.toNat := by
    intro c₁ c₂ hc
    have h₂ := congrArg Char.ofNat hc
    rwa [Char.ofNat_toNat, Char.ofNat_toNat] at h₂
  have h₃ := List.map_injective_iff.mpr hinj hd
  cases s₁ with
  | mk d₁ => cases s₂ with
    | mk d₂ => exact congrArg String.mk h₃

/-- Model of sha256's 32-byte digest, for use where the code needs the
digest as bytes (directory derivation).  Little-endian base-256 digits
of `sha256Model`. -/
def sha256Bytes (s : String) : List Nat :=
  (List.range 32).map (fun i => sha256Model s / 256 ^ i % 256)

/-! ## Model of noble's `xchacha20poly1305` AEAD

`cipher(key, nonce).encrypt(data)` is modelled as the XOR of `data`
with a keystream determined by `(key, nonce)`, followed by a one-element
authentication tag that is a perfect MAC: determined by, and injective
in, the key.  `cipher(key, nonce).decrypt(ct)` checks the tag and
throws "invalid tag" exactly when it does not match; a malformed nonce
raises a different error, modelling the library's other failure
modes. -/

/-- Keystream byte `i` of the modelled XChaCha20 cipher. -/
def keystream (key : Nat) (nonce : List Nat) (i : Nat) : Nat :=
  Nat.pair key (Nat.pair (encodeList nonce) i)

/-- XOR a byte list with the keystream, starting at position `i`. -/
def xorKeystream (key : Nat) (nonce : List Nat) : Nat → List Nat → List Nat
  | _, [] => []
  | i, b :: bs => (b ^^^ keystream key nonce i) :: xorKeystream key nonce (i + 1) bs

theorem xorKeystream_involutive (key : Nat) (nonce : List Nat) :
    ∀ (i : Nat) (m : List Nat),
      xorKeystream key nonce i (xorKeystream key nonce i m) = m := by
  intro i m
  induction m generalizing i with
  | nil => rfl
  | cons b bs ih =>
    simp only [xorKeystream, Nat.xor_cancel_right, ih]

/-- Model of the Poly1305 authentication tag over the ciphertext:
a perfect MAC, injective in the key. -/
def polyTag (key : Nat) (nonce ct : List Nat) : Nat :=
  Nat.pair key (Nat.pair (encodeList nonce) (encodeList ct))

theorem polyTag_key_inj {k₁ k₂ : Nat} {nonce ct : List Nat}
    (h : polyTag k₁ nonce ct = polyTag k₂ nonce ct) : k₁ = k₂ :=
  ((Nat.pair_eq_pair.mp h).1)

inductive CipherError
  | invalidTag
  | other (msg : String)
deriving DecidableEq, Repr

/-- `cipher(key, nonce).encrypt(data)`: keystream-XORed body followed by
the authentication tag. -/
def cipherEncrypt (key : Nat) (nonce : List Nat) (data : List Nat) : List Nat :=
  xorKeystream key nonce 0 data ++ [polyTag key nonce (xorKeystream key nonce 0 data)]

/-- `cipher(key, nonce).decrypt(ct)`: fails with "invalid tag" exactly
when the authentication tag does not match; malformed nonce raises a
different error. -/
def cipherDecrypt (key : Nat) (nonce : List Nat) (ct : List Nat) :
    Except CipherError (List Nat) :=
  if nonce.length ≠ 24 then .error (.other "invalid nonce length")
  else
    match ct.getLast? with
    | none => .error .invalidTag
    | some t =>
      if t = polyTag key nonce ct.dropLast then .ok (xorKeystream key nonce 0 ct.dropLast)
      else .error .invalidTag

/-! ## `src/util.ts`: `encrypt` / `decrypt`

```ts
export function encrypt(password: string, data: Uint8Array): Uint8Array {
  const cipherKey = sha256(password);
  const cipherNonce = randomBytes(24);
  const encrypted = cipher(cipherKey, cipherNonce).encrypt(data);
  return concatBytes(cipherNonce, encrypted);
}
```

The fresh random 24-byte nonce drawn by `randomBytes(24)` is passed as
an explicit parameter. -/

def encrypt (password : String) (nonce : List Nat) (data : List Nat) : List Nat :=
  nonce ++ cipherEncrypt (sha256Model password) nonce data

inductive DecryptError
  | wrongChannelKey
  | other (msg : String)
deriving DecidableEq, Repr

/-- `src/util.ts` `decrypt`: split off the 24-byte nonce, decrypt the
rest; the cipher's "invalid tag" error is remapped to
`"Wrong password for this encrypted data"` (`wrongChannelKey`), every
other error is re-thrown unchanged. -/
def decrypt (password : String) (encrypted : List Nat) :
    Except DecryptError (List Nat) :=
  match cipherDecrypt (sha256Model password) (encrypted.take 24) (encrypted.drop 24) with
  | .error .invalidTag => .error .wrongChannelKey
  | .error (.other msg) => .error (.other msg)
  | .ok d => .ok d

/-- Decrypting under the encrypting channel recovers the payload. -/
theorem decrypt_encrypt_eq (channel : String) (data nonce : List Nat)
    (hn : nonce.length = 24) :
    decrypt channel (encrypt channel nonce data) = .ok data := by
  unfold decrypt encrypt cipherEncrypt cipherDecrypt
  rw [List.take_left' hn, List.drop_left' hn]
  rw [List.getLast?_concat, List.dropLast_concat]
  simp [xorKeystream_involutive, hn]

/-- C7: for every channel string and every byte payload, and every
24-byte nonce drawn by `randomBytes(24)`,
`decrypt(channel, encrypt(channel, data))` succeeds and returns `data`. -/
theorem decrypt_encrypt_roundtrip (channel : String) (data nonce : List Nat)
    (hn : nonce.length = 24) :
    decrypt channel (encrypt channel nonce data) = .ok data :=
  decrypt_encrypt_eq channel data nonce hn

/-- Witness for C7 at a concrete channel, nonce and payload. -/
theorem decrypt_encrypt_roundtrip_witness :
    (List.replicate 24 0).length = 24 ∧
      decrypt "c" (encrypt "c" (List.replicate 24 0) [1, 2, 3]) = .ok [1, 2, 3] :=
  ⟨by decide, decrypt_encrypt_roundtrip "c" [1, 2, 3] (List.replicate 24 0) (by decide)⟩

/-- C8: `decrypt` fails with `wrongChannelKey` exactly when the AEAD
tag check fails ("invalid tag"); every other cipher error propagates
unchanged; and decrypting under a different channel than the one used
to encrypt always fails with `wrongChannelKey`. -/
theorem decrypt_wrongChannelKey :
    (∀ (password : String) (encrypted : List Nat),
      (decrypt password encrypted = .error .wrongChannelKey ↔
        cipherDecrypt (sha256Model password) (encrypted.take 24) (encrypted.drop 24) =
          .error .invalidTag) ∧
      (∀ msg, decrypt password encrypted = .error (.other msg) ↔
        cipherDecrypt (sha256Model password) (encrypted.take 24) (encrypted.drop 24) =
          .error (.other msg))) ∧
    (∀ (channelA channelB : String) (nonce data : List Nat),
      channelA ≠ channelB → nonce.length = 24 →
      decrypt channelB (encrypt channelA nonce data) = .error .wrongChannelKey) := by
  constructor
  · intro password encrypted
    constructor
    · unfold decrypt
      cases h : cipherDecrypt (sha256Model password) (encrypted.take 24) (encrypted.drop 24) with
      | ok d => simp
      | error e => cases e <;> simp
    · intro msg
      unfold decrypt
      cases h : cipherDecrypt (sha256Model password) (encrypted.take 24) (encrypted.drop 24) with
      | ok d => simp
      | error e => cases e <;> simp
  · intro channelA channelB nonce data hne hn
    unfold decrypt encrypt cipherEncrypt cipherDecrypt
    rw [List.take_left' hn, List.drop_left' hn]
    rw [List.getLast?_concat, List.dropLast_concat]
    have hkey : sha256Model channelA ≠ sha256Model channelB :=
      fun h => hne (sha256Model_injective h)
    have htag : polyTag (sha256Model channelA) nonce
        (xorKeystream (sha256Model channelA) nonce 0 data) ≠
        polyTag (sha256Model channelB) nonce
        (xorKeystream (sha256Model channelA) nonce 0 data) :=
      fun h => hkey (polyTag_key_inj h)
    simp [hn, htag]

/-- Witness for C8 at concrete channels, nonce and payload. -/
theorem decrypt_wrongChannelKey_witness :
    ("a" : String) ≠ "b" ∧ (List.replicate 24 0).length = 24 ∧
      decrypt "b" (encrypt "a" (List.replicate 24 0) [7]) = .error .wrongChannelKey :=
  ⟨by decide, by decide,
    decrypt_wrongChannelKey.2 "a" "b" (List.replicate 24 0) [7] (by decide) (by decide)⟩

/-! ## `src/util.ts`: `base64Encode` / `base64Decode`

`base64Encode` is `btoa` followed by the global replacements of plus
by minus and slash by underscore, and stripping of trailing `=`
padding.  `base64Decode` performs the reverse replacements, re-appends
`=` until the length is a multiple of four, then applies `atob` and
takes the code point of each resulting character.

The JS builtins `btoa`/`atob` are modelled concretely as standard
base64 over the usual alphabet with `=` padding. -/

/-- The standard base64 alphabet used by JS `btoa`/`atob`. -/
def base64Alphabet : List Char :=
  "ABCDEFGHIJKLMNOPQRSTUVWXYZabcdefghijklmnopqrstuvwxyz0123456789+/".data

/-- Sextet to base64 character. -/
def b64Char (n : Nat) : Char := base64Alphabet.getD n 'A'

/-- Base64 character back to its sextet (used by the `atob` model). -/
def b64Value (c : Char) : Nat := base64Alphabet.indexOf c

/-- JS `btoa` on a byte list: groups of three bytes become four base64
characters; a trailing group of one or two bytes is padded with `=`. -/
def btoa : List Nat → List Char
  | [] => []
  | [b] => [b64Char (b / 4), b64Char (b % 4 * 16), '=', '=']
  | [b1, b2] =>
    [b64Char (b1 / 4), b64Char (b1 % 4 * 16 + b2 / 16), b64Char (b2 % 16 * 4), '=']
  | b1 :: b2 :: b3 :: rest =>
    b64Char (b1 / 4) :: b64Char (b1 % 4 * 16 + b2 / 16) ::
      b64Char (b2 % 16 * 4 + b3 / 64) :: b64Char (b3 % 64) :: btoa rest

/-- JS `atob` on a character list, producing the code points of the
decoded binary string (defined on well-formed base64 input). -/
def atob : List Char → List Nat
  | c1 :: c2 :: c3 :: c4 :: rest =>
    if c3 = '=' then [b64Value c1 * 4 + b64Value c2 / 16]
    else if c4 = '=' then
      [b64Value c1 * 4 + b64Value c2 / 16, b64Value c2 % 16 * 16 + b64Value c3 / 4]
    else
      (b64Value c1 * 4 + b64Value c2 / 16) ::
        (b64Value c2 % 16 * 16 + b64Value c3 / 4) ::
        (b64Value c3 % 4 * 64 + b64Value c4) :: atob rest
  | _ => []

/-- The url-safe replacement `+ → -`, `/ → _` applied by `base64Encode`. -/
def urlSafeChar (c : Char) : Char :=
  if c = '+' then '-' else if c = '/' then '_' else c

/-- Strip the trailing `=` padding (the `/\=+$/` replacement). -/
def stripEq (l : List Char) : List Char :=
  (l.reverse.dropWhile (fun c => c == '=')).reverse

def base64Encode (bytes : List Nat) : String :=
  String.mk (stripEq ((btoa bytes).map urlSafeChar))

/-- The reverse replacement `- → +`, `_ → /` applied by `base64Decode`. -/
def urlSafeCharBack (c : Char) : Char :=
  if c = '-' then '+' else if c = '_' then '/' else c

/-- Re-append `=` until the length is a multiple of four (the `while`
loop of `base64Decode`). -/
def padEq (l : List Char) : List Char :=
  l ++ List.replicate ((4 - l.length % 4) % 4) '='

def base64Decode (s : String) : List Nat :=
  atob (padEq (s.data.map urlSafeCharBack))

theorem eq_not_mem_alphabet : ('=' : Char) ∉ base64Alphabet := by decide

theorem b64Char_mem (n : Nat) : b64Char n ∈ base64Alphabet := by
  unfold b64Char
  rcases Nat.lt_or_ge n base64Alphabet.length with h | h
  · rw [List.getD_eq_getElem _ _ h]
    exact List.getElem_mem h
  · rw [List.getD_eq_default _ _ h]
    decide

theorem b64Char_ne_eq (n : Nat) : b64Char n ≠ '=' :=
  fun h => eq_not_mem_alphabet (h ▸ b64Char_mem n)

theorem b64Value_b64Char : ∀ n, n < 64 → b64Value (b64Char n) = n := by decide

theorem urlSafeChar_eq_iff (c : Char) : urlSafeChar c = '=' ↔ c = '=' := by
  unfold urlSafeChar
  by_cases h1 : c = '+'
  · subst h1
    constructor <;> (intro h; exact absurd h (by decide))
  · by_cases h2 : c = '/'
    · subst h2
      simp only [if_neg (by decide : ('/' : Char) ≠ '+'), if_pos rfl]
      constructor <;> (intro h; exact absurd h (by decide))
    · simp [h1, h2]

theorem urlSafeCharBack_urlSafeChar {c : Char} (h : c ∈ base64Alphabet) :
    urlSafeCharBack (urlSafeChar c) = c := by
  fin_cases h <;> decide

theorem urlSafeCharBack_urlSafeChar_eq :
    urlSafeCharBack (urlSafeChar '=') = '=' := by decide

/-- Structure of `btoa` output: alphabet characters followed by
exactly `(3 - n % 3) % 3` padding characters, with total length
`4 * ((n + 2) / 3)`. -/
theorem btoa_spec : ∀ bytes : List Nat, ∃ core : List Char,
    btoa bytes = core ++ List.replicate ((3 - bytes.length % 3) % 3) '=' ∧
    (∀ c ∈ core, c ∈ base64Alphabet) ∧
    core.length + (3 - bytes.length % 3) % 3 = 4 * ((bytes.length + 2) / 3)
  | [] => ⟨[], rfl, by intro c hc; exact absurd hc (List.not_mem_nil c), rfl⟩
  | [b] => by
    refine ⟨[b64Char (b / 4), b64Char (b % 4 * 16)], rfl, ?_, by simp⟩
    intro c hc
    simp only [List.mem_cons, List.not_mem_nil, or_false] at hc
    rcases hc with rfl | rfl
    · exact b64Char_mem _
    · exact b64Char_mem _
  | [b1, b2] => by
    refine ⟨[b64Char (b1 / 4), b64Char (b1 % 4 * 16 + b2 / 16), b64Char (b2 % 16 * 4)],
      rfl, ?_, by simp⟩
    intro c hc
    simp only [List.mem_cons, List.not_mem_nil, or_false] at hc
    rcases hc with rfl | rfl | rfl
    · exact b64Char_mem _
    · exact b64Char_mem _
    · exact b64Char_mem _
  | b1 :: b2 :: b3 :: rest => by
    obtain ⟨core, heq, hmem, hlen⟩ := btoa_spec rest
    refine ⟨b64Char (b1 / 4) :: b64Char (b1 % 4 * 16 + b2 / 16) ::
      b64Char (b2 % 16 * 4 + b3 / 64) :: b64Char (b3 % 64) :: core, ?_, ?_, ?_⟩
    · rw [btoa]
      have hmod : (3 - (b1 :: b2 :: b3 :: rest).length % 3) % 3 =
          (3 - rest.length % 3) % 3 := by
        simp only [List.length_cons]
        omega
      rw [hmod, heq]
      rfl
    · intro c hc
      simp only [List.mem_cons] at hc
      rcases hc with rfl | rfl | rfl | rfl | h
      · exact b64Char_mem _
      · exact b64Char_mem _
      · exact b64Char_mem _
      · exact b64Char_mem _
      · exact hmem c h
    · simp only [List.length_cons] at hlen ⊢
      omega

theorem dropWhile_replicate_append (p : Char → Bool) (a : Char) (hp : p a = true) :
    ∀ (k : Nat) (l : List Char),
      (List.replicate k a ++ l).dropWhile p = l.dropWhile p := by
  intro k
  induction k with
  | zero => intro l; rfl
  | succ n ih =>
    intro l
    rw [List.replicate_succ, List.cons_append, List.dropWhile_cons_of_pos hp]
    exact ih l

/-- Stripping trailing `=` from a list of non-`=` characters followed by
`=` padding recovers the unpadded part. -/
theorem stripEq_append_replicate (core : List Char) (k : Nat)
    (h : ('=' : Char) ∉ core) :
    stripEq (core ++ List.replicate k '=') = core := by
  unfold stripEq
  rw [List.reverse_append, List.reverse_replicate,
    dropWhile_replicate_append _ _ (by simp) k]
  cases hc : core.reverse with
  | nil =>
    have hcore : core = [] := by simpa using congrArg List.reverse hc
    simp [hcore]
  | cons x xs =>
    have hx : x ∈ core := by
      have hxr : x ∈ core.reverse := by rw [hc]; exact List.mem_cons_self x xs
      simpa using hxr
    have hxe : ¬(x = '=') := fun he => h (he ▸ hx)
    rw [List.dropWhile_cons_of_neg (by simpa using hxe), ← hc, List.reverse_reverse]

/-- `base64Encode bytes` is the url-safe mapping of the unpadded core of
`btoa bytes`. -/
theorem base64Encode_eq (bytes : List Nat) : ∃ core : List Char,
    (∀ c ∈ core, c ∈ base64Alphabet) ∧
    base64Encode bytes = String.mk (core.map urlSafeChar) ∧
    core.length + (3 - bytes.length % 3) % 3 = 4 * ((bytes.length + 2) / 3) ∧
    btoa bytes = core ++ List.replicate ((3 - bytes.length % 3) % 3) '=' := by
  obtain ⟨core, heq, hmem, hlen⟩ := btoa_spec bytes
  refine ⟨core, hmem, ?_, hlen, heq⟩
  unfold base64Encode
  rw [heq, List.map_append, List.map_replicate]
  have hrep : urlSafeChar '=' = '=' := by decide
  rw [hrep, stripEq_append_replicate]
  intro hmemEq
  obtain ⟨c, hc, hce⟩ := List.mem_map.mp hmemEq
  have hceq : c = '=' := (urlSafeChar_eq_iff c).mp hce
  exact eq_not_mem_alphabet (hceq ▸ hmem c hc)

/-- A 16-byte input encodes to 22 characters. -/
theorem base64Encode_length_of_sixteen (uuid : List Nat) (h : uuid.length = 16) :
    (base64Encode uuid).length = 22 := by
  obtain ⟨core, _, henc, hlen, _⟩ := base64Encode_eq uuid
  rw [h] at hlen
  have : core.length = 22 := by omega
  rw [henc]
  show (core.map urlSafeChar).length = 22
  rw [List.length_map, this]

/-- `atob` inverts `btoa` on byte lists (values `0–255`). -/
theorem atob_btoa : ∀ bytes : List Nat, (∀ x ∈ bytes, x < 256) →
    atob (btoa bytes) = bytes
  | [], _ => rfl
  | [b], hb => by
    have h : b < 256 := hb b (by simp)
    have hv : b64Value (b64Char (b / 4)) * 4 + b64Value (b64Char (b % 4 * 16)) / 16 = b := by
      rw [b64Value_b64Char _ (by omega), b64Value_b64Char _ (by omega)]
      omega
    rw [btoa, atob, if_pos rfl, hv]
  | [b1, b2], hb => by
    have h1 : b1 < 256 := hb b1 (by simp)
    have h2 : b2 < 256 := hb b2 (by simp)
    have hv1 : b64Value (b64Char (b1 / 4)) * 4 +
        b64Value (b64Char (b1 % 4 * 16 + b2 / 16)) / 16 = b1 := by
      rw [b64Value_b64Char _ (by omega), b64Value_b64Char _ (by omega)]
      omega
    have hv2 : b64Value (b64Char (b1 % 4 * 16 + b2 / 16)) % 16 * 16 +
        b64Value (b64Char (b2 % 16 * 4)) / 4 = b2 := by
      rw [b64Value_b64Char _ (by omega), b64Value_b64Char _ (by omega)]
      omega
    rw [btoa, atob, if_neg (b64Char_ne_eq _), if_pos rfl, hv1, hv2]
  | b1 :: b2 :: b3 :: rest, hb => by
    have h1 : b1 < 256 := hb b1 (by simp)
    have h2 : b2 < 256 := hb b2 (by simp)
    have h3 : b3 < 256 := hb b3 (by simp)
    have hv1 : b64Value (b64Char (b1 / 4)) * 4 +
        b64Value (b64Char (b1 % 4 * 16 + b2 / 16)) / 16 = b1 := by
      rw [b64Value_b64Char _ (by omega), b64Value_b64Char _ (by omega)]
      omega
    have hv2 : b64Value (b64Char (b1 % 4 * 16 + b2 / 16)) % 16 * 16 +
        b64Value (b64Char (b2 % 16 * 4 + b3 / 64)) / 4 = b2 := by
      rw [b64Value_b64Char _ (by omega), b64Value_b64Char _ (by omega)]
      omega
    have hv3 : b64Value (b64Char (b2 % 16 * 4 + b3 / 64)) % 4 * 64 +
        b64Value (b64Char (b3 % 64)) = b3 := by
      rw [b64Value_b64Char _ (by omega), b64Value_b64Char _ (by omega)]
      omega
    have ih := atob_btoa rest (fun x hx => hb x (by simp [hx]))
    rw [btoa, atob, if_neg (b64Char_ne_eq _), if_neg (b64Char_ne_eq _),
      hv1, hv2, hv3, ih]

/-- `base64Decode` inverts `base64Encode` on byte lists. -/
theorem base64Decode_base64Encode (bytes : List Nat) (hb : ∀ x ∈ bytes, x < 256) :
    base64Decode (base64Encode bytes) = bytes := by
  obtain ⟨core, hmem, henc, hlen, hbtoa⟩ := base64Encode_eq bytes
  rw [henc]
  unfold base64Decode
  show atob (padEq ((core.map urlSafeChar).map urlSafeCharBack)) = bytes
  have hid : (core.map urlSafeChar).map urlSafeCharBack = core := by
    rw [List.map_map]
    have hcg : core.map (urlSafeCharBack ∘ urlSafeChar) = core.map id :=
      List.map_congr_left (fun c hc => urlSafeCharBack_urlSafeChar (hmem c hc))
    rw [hcg, List.map_id]
  rw [hid]
  have hpad : padEq core = core ++ List.replicate ((3 - bytes.length % 3) % 3) '=' := by
    unfold padEq
    have hk : (4 - core.length % 4) % 4 = (3 - bytes.length % 3) % 3 := by omega
    rw [hk]
  rw [hpad, ← hbtoa]
  exact atob_btoa bytes hb

/-! ## `index.ts`: the subscription merge loop

`subscribe(channel, sharedLink, signal)` races "next speculative
event" against "next iterator event" and routes whichever fires first.
The loop body (lines 403–466 of `index.ts`) is embedded as a pure step
function over the durable cache state (the IndexedDB `data` and
`cursors` stores); the race outcome is the step's input. -/

/-- A speculative event value (`OptimisticValue` in `index.ts`)
dispatched by `update`/`delete` on the shared event target. -/
inductive OptimisticValue
  | update (name : String) (data : List Nat)
  | delete (name : String)
deriving DecidableEq, Repr

/-- A raw change-feed iterator event (`FileListResult` in
`dropbox.ts`). -/
inductive FileListResult
  | update (name : String) (data : List Nat)
  | delete (name : String)
  | cursor (cursor : String)
  | backlogComplete
deriving DecidableEq, Repr

/-- The value produced by the `Promise.race` of the merge loop:
either a speculative event or a confirmed iterator event. -/
inductive MergedEvent
  | optimistic (v : OptimisticValue)
  | confirmed (r : FileListResult)
deriving DecidableEq, Repr

/-- An externally observable subscription event (`SubscribeResult` in
`index.ts`). -/
inductive SubscribeResult
  | update (uuid : List Nat) (data : List Nat)
  | delete (uuid : List Nat)
  | backlogComplete
deriving DecidableEq, Repr

/-- One cached record of the IndexedDB `data` store. -/
structure CacheEntry where
  uuid : List Nat
  sharedLink : String
  data : List Nat
deriving DecidableEq, Repr

/-- The durable local cache visible to the merge loop: the `data`
store keyed by `uuid + "@" + sharedLink` and the `cursors` store keyed
by shared link. -/
structure SubState where
  dataStore : List (String × CacheEntry)
  cursors : List (String × String)
deriving DecidableEq, Repr

/-- `put` on an object store keyed by strings. -/
def putAssoc {α : Type} (store : List (String × α)) (key : String) (v : α) :
    List (String × α) :=
  (key, v) :: store.filter (fun p => p.1 != key)

/-- `delete` on an object store keyed by strings. -/
def delAssoc {α : Type} (store : List (String × α)) (key : String) :
    List (String × α) :=
  store.filter (fun p => p.1 != key)

/-- `#uuidPlusSharedLink` from `index.ts`. -/
def uuidPlusSharedLink (uuidString sharedLink : String) : String :=
  uuidString ++ "@" ++ sharedLink

/-- One iteration of the merge loop body of `subscribe`: route a raced
event, updating the durable cache only on confirmed events, and emit
the externally visible events.  A decryption failure terminates the
subscription with that error. -/
def subscribeStep (channel sharedLink : String) (st : SubState) (ev : MergedEvent) :
    Except DecryptError (SubState × List SubscribeResult) :=
  match ev with
  | .optimistic (.update name data) =>
    if name ≠ "signature" then
      .ok (st, [.update (base64Decode name) data])
    else .ok (st, [])
  | .confirmed (.update name data) =>
    if name ≠ "signature" then
      match decrypt channel data with
      | .error e => .error e
      | .ok d =>
        .ok ({ st with
                dataStore := putAssoc st.dataStore (uuidPlusSharedLink name sharedLink)
                  { uuid := base64Decode name, sharedLink := sharedLink, data := d } },
          [.update (base64Decode name) d])
    else .ok (st, [])
  | .optimistic (.delete name) => .ok (st, [.delete (base64Decode name)])
  | .confirmed (.delete name) =>
    .ok ({ st with
            dataStore := delAssoc st.dataStore (uuidPlusSharedLink name sharedLink) },
      [.delete (base64Decode name)])
  | .confirmed (.cursor c) =>
    .ok ({ st with cursors := putAssoc st.cursors sharedLink c }, [])
  | .confirmed .backlogComplete => .ok (st, [.backlogComplete])

/-- Fold of the merge loop over a sequence of raced events. -/
def runSubscribe (channel sharedLink : String) (st : SubState) :
    List MergedEvent → Except DecryptError (SubState × List SubscribeResult)
  | [] => .ok (st, [])
  | ev :: evs =>
    match subscribeStep channel sharedLink st ev with
    | .error e => .error e
    | .ok (st', out) =>
      match runSubscribe channel sharedLink st' evs with
      | .error e => .error e
      | .ok (st'', outs) => .ok (st'', out ++ outs)

/-- The confirmed sub-sequence of a merged event sequence. -/
def confirmedOnly (evs : List MergedEvent) : List MergedEvent :=
  evs.filter (fun ev => match ev with | .optimistic _ => false | .confirmed _ => true)

/-- Processing a speculative event never touches the durable state and
never fails. -/
theorem subscribeStep_optimistic (channel sharedLink : String) (st : SubState)
    (v : OptimisticValue) :
    ∃ out, subscribeStep channel sharedLink st (.optimistic v) = .ok (st, out) := by
  cases v with
  | update name data =>
    by_cases h : name = "signature"
    · exact ⟨[], by simp [subscribeStep, h]⟩
    · exact ⟨[.update (base64Decode name) data], by simp [subscribeStep, h]⟩
  | delete name => exact ⟨[.delete (base64Decode name)], rfl⟩

/-- C2: over every sequence and interleaving of speculative and
confirmed events, the durable record cache and persisted cursor evolve
exactly as they would if only the confirmed events were processed:
speculative events never write to or delete from the durable state. -/
theorem subscribe_state_confirmed_only (channel sharedLink : String) (st : SubState)
    (evs : List MergedEvent) :
    (runSubscribe channel sharedLink st evs).map Prod.fst =
      (runSubscribe channel sharedLink st (confirmedOnly evs)).map Prod.fst := by
  induction evs generalizing st with
  | nil => rfl
  | cons ev evs ih =>
    cases ev with
    | optimistic v =>
      obtain ⟨out, hstep⟩ := subscribeStep_optimistic channel sharedLink st v
      have hco : confirmedOnly (MergedEvent.optimistic v :: evs) = confirmedOnly evs := by
        simp [confirmedOnly]
      rw [hco, runSubscribe, hstep, ← ih st]
      dsimp only
      cases hr : runSubscribe channel sharedLink st evs with
      | error e => rfl
      | ok p =>
        obtain ⟨st'', outs⟩ := p
        rfl
    | confirmed r =>
      have hco : confirmedOnly (MergedEvent.confirmed r :: evs) =
          MergedEvent.confirmed r :: confirmedOnly evs := by
        simp [confirmedOnly]
      rw [hco, runSubscribe, runSubscribe]
      cases hstep : subscribeStep channel sharedLink st (.confirmed r) with
      | error e => rfl
      | ok p =>
        obtain ⟨st', out⟩ := p
        have hih := ih st'
        dsimp only
        cases hA : runSubscribe channel sharedLink st' evs with
        | error e =>
          cases hB : runSubscribe channel sharedLink st' (confirmedOnly evs) with
          | error e' =>
            rw [hA, hB] at hih
            simp only [Except.map] at hih ⊢
            exact hih
          | ok q =>
            rw [hA, hB] at hih
            simp [Except.map] at hih
        | ok q =>
          obtain ⟨st'', outs⟩ := q
          cases hB : runSubscribe channel sharedLink st' (confirmedOnly evs) with
          | error e' =>
            rw [hA, hB] at hih
            simp [Except.map] at hih
          | ok q' =>
            obtain ⟨st₃, outs'⟩ := q'
            rw [hA, hB] at hih
            simp only [Except.map] at hih ⊢
            simpa using hih

/-- The base64 name of a 16-byte uuid never equals the reserved
envelope name `"signature"`. -/
theorem base64Encode_ne_signature (uuid : List Nat) (h : uuid.length = 16) :
    base64Encode uuid ≠ "signature" := by
  intro he
  have hlen := base64Encode_length_of_sixteen uuid h
  rw [he] at hlen
  exact absurd hlen (by decide)

/-- A confirmed update whose name is not the reserved signature name is
decrypted, cached and re-emitted by the merge loop. -/
theorem subscribeStep_confirmed_update (channel sharedLink name : String)
    (st : SubState) (nonce d : List Nat) (hn : nonce.length = 24)
    (hname : name ≠ "signature") :
    subscribeStep channel sharedLink st
        (.confirmed (.update name (encrypt channel nonce d))) =
      .ok ({ st with
              dataStore := putAssoc st.dataStore (uuidPlusSharedLink name sharedLink)
                { uuid := base64Decode name, sharedLink := sharedLink, data := d } },
        [.update (base64Decode name) d]) := by
  unfold subscribeStep
  dsimp only
  rw [if_pos hname, decrypt_encrypt_eq channel d nonce hn]

/-- C9: every 16-byte uuid encodes to a 22-character url-safe name,
which is therefore distinct from the reserved envelope name
`"signature"`; hence the merge loop's suppression of updates named
`"signature"` never hides a genuine record update, while a confirmed
update named `"signature"` is never surfaced to subscribers. -/
theorem signature_name_disjoint (uuid : List Nat) (h : uuid.length = 16) :
    (base64Encode uuid).length = 22 ∧ base64Encode uuid ≠ "signature" ∧
    (∀ channel sharedLink : String, ∀ st : SubState, ∀ nonce d : List Nat,
      nonce.length = 24 →
      subscribeStep channel sharedLink st
          (.confirmed (.update (base64Encode uuid) (encrypt channel nonce d))) =
        .ok ({ st with
                dataStore := putAssoc st.dataStore
                  (uuidPlusSharedLink (base64Encode uuid) sharedLink)
                  { uuid := base64Decode (base64Encode uuid),
                    sharedLink := sharedLink, data := d } },
          [.update (base64Decode (base64Encode uuid)) d])) ∧
    (∀ channel sharedLink : String, ∀ st : SubState, ∀ payload : List Nat,
      subscribeStep channel sharedLink st
          (.confirmed (.update "signature" payload)) = .ok (st, [])) := by
  refine ⟨base64Encode_length_of_sixteen uuid h, base64Encode_ne_signature uuid h,
    ?_, ?_⟩
  · intro channel sharedLink st nonce d hn
    exact subscribeStep_confirmed_update channel sharedLink _ st nonce d hn
      (base64Encode_ne_signature uuid h)
  · intro channel sharedLink st payload
    unfold subscribeStep
    dsimp only
    rw [if_neg (by simp)]

/-- Witness for C9 at the all-zero 16-byte uuid. -/
theorem signature_name_disjoint_witness :
    (List.replicate 16 0).length = 16 ∧
      (base64Encode (List.replicate 16 0)).length = 22 ∧
      base64Encode (List.replicate 16 0) ≠ "signature" :=
  ⟨by decide, (signature_name_disjoint _ (by decide)).1,
    (signature_name_disjoint _ (by decide)).2.1⟩

/-- C10: `base64Decode` inverts `base64Encode` on every byte list
(any length, byte values `0–255`); consequently the uuid carried by a
confirmed update or delete event emitted by the merge loop equals the
uuid whose encoding names the backend file. -/
theorem base64_roundtrip_subscribe_uuid (b : List Nat) (hb : ∀ x ∈ b, x < 256) :
    base64Decode (base64Encode b) = b ∧
    (∀ channel sharedLink : String, ∀ st : SubState,
      subscribeStep channel sharedLink st (.confirmed (.delete (base64Encode b))) =
        .ok ({ st with
                dataStore := delAssoc st.dataStore
                  (uuidPlusSharedLink (base64Encode b) sharedLink) },
          [.delete b])) ∧
    (∀ channel sharedLink : String, ∀ st : SubState, ∀ nonce d : List Nat,
      nonce.length = 24 → b.length = 16 →
      subscribeStep channel sharedLink st
          (.confirmed (.update (base64Encode b) (encrypt channel nonce d))) =
        .ok ({ st with
                dataStore := putAssoc st.dataStore
                  (uuidPlusSharedLink (base64Encode b) sharedLink)
                  { uuid := b, sharedLink := sharedLink, data := d } },
          [.update b d])) := by
  have hrt := base64Decode_base64Encode b hb
  refine ⟨hrt, ?_, ?_⟩
  · intro channel sharedLink st
    unfold subscribeStep
    dsimp only
    rw [hrt]
  · intro channel sharedLink st nonce d hn h16
    have hstep := subscribeStep_confirmed_update channel sharedLink (base64Encode b)
      st nonce d hn (base64Encode_ne_signature b h16)
    rw [hrt] at hstep
    exact hstep

/-- Witness for C10 at a concrete three-byte list. -/
theorem base64_roundtrip_subscribe_uuid_witness :
    (∀ x ∈ [0, 100, 255], x < 256) ∧ base64Decode (base64Encode [0, 100, 255]) = [0, 100, 255] :=
  ⟨by decide, (base64_roundtrip_subscribe_uuid [0, 100, 255] (by decide)).1⟩

/-! ## `index.ts`: `update` (post) and its speculative broadcast

`update(channel, publicKey, uuid, data)` validates the uuid, resolves
the directory and shared link, reads the cached record, synchronously
dispatches a speculative update event on the shared link, encrypts and
uploads, and on upload failure dispatches a compensating event (the
previously cached value if one existed, otherwise a delete) before
re-throwing the original error.  The call is embedded as a function of
an environment (cache contents, backend responses, the random nonce)
to the ordered list of its observable actions and its settled
result. -/

/-- `#channelAndPublicKeyToDirectory` without its length guard:
`base64Encode(sha256("byo/" + base64Encode(publicKey) + "/" + channel))`. -/
def directoryOf (channel : String) (publicKey : List Nat) : String :=
  base64Encode (sha256Bytes ("byo/" ++ base64Encode publicKey ++ "/" ++ channel))

/-- Environment of one `update`/`delete` call. -/
structure UpdateEnv where
  /-- `shared-links` cache hit for the derived directory, if any. -/
  cachedSharedLink : Option String
  /-- Outcome of `dropbox.createDirectory` on a cache miss. -/
  backendSharedLink : Except String String
  /-- `data` store entry for `(uuid, sharedLink)`, if any. -/
  existing : Option CacheEntry
  /-- Outcome of the backend upload (`updateFile`) or deletion. -/
  uploadResult : Except String Unit
  /-- The 24-byte nonce drawn by `encrypt`. -/
  nonce : List Nat

/-- The shared link `createDirectory` resolves: the cached link when
present, otherwise the backend-created one. -/
def resolvedSharedLink (env : UpdateEnv) : Except String String :=
  match env.cachedSharedLink with
  | some link => .ok link
  | none => env.backendSharedLink

/-- `createDirectory(channel, publicKey)`: length guard, directory
derivation, cache-or-backend shared link. -/
def createDirectoryModel (channel : String) (publicKey : List Nat) (env : UpdateEnv) :
    Except String (String × String) :=
  if publicKey.length ≠ 32 then .error "Public key must be 32 bytes"
  else
    match resolvedSharedLink env with
    | .error e => .error e
    | .ok link => .ok (directoryOf channel publicKey, link)

/-- Observable actions of an `update`/`delete` call, in program order. -/
inductive UpdAction
  | dispatched (sharedLink : String) (v : OptimisticValue)
  | uploadStarted (directory name : String) (payload : List Nat)
  | deleteStarted (directory name : String)
deriving DecidableEq, Repr

/-- `update(channel, publicKey, uuid, data)` from `index.ts`. -/
def updateModel (channel : String) (publicKey uuid data : List Nat) (env : UpdateEnv) :
    List UpdAction × Except String String :=
  if uuid.length ≠ 16 then ([], .error "UUID must be 16 bytes")
  else
    match createDirectoryModel channel publicKey env with
    | .error e => ([], .error e)
    | .ok (directory, sharedLink) =>
      let uuidString := base64Encode uuid
      let encrypted := encrypt channel env.nonce data
      match env.uploadResult with
      | .ok _ =>
        ([.dispatched sharedLink (.update uuidString data),
          .uploadStarted directory uuidString encrypted], .ok sharedLink)
      | .error e =>
        ([.dispatched sharedLink (.update uuidString data),
          .uploadStarted directory uuidString encrypted,
          .dispatched sharedLink
            (match env.existing with
             | some entry => OptimisticValue.update uuidString entry.data
             | none => OptimisticValue.delete uuidString)],
          .error e)

/-- C3: for every `update` call with a 16-byte uuid (and a valid
32-byte key and resolvable shared link), the speculative update event
carrying that uuid and data is dispatched on the resolved shared link
strictly before the backend upload is initiated — and is dispatched
whether the upload later succeeds or fails, hence before the returned
promise settles. -/
theorem update_speculative_before_upload (channel : String)
    (publicKey uuid data : List Nat) (env : UpdateEnv) (sharedLink : String)
    (h16 : uuid.length = 16) (h32 : publicKey.length = 32)
    (hres : resolvedSharedLink env = .ok sharedLink) :
    (updateModel channel publicKey uuid data env).1.take 2 =
      [.dispatched sharedLink (.update (base64Encode uuid) data),
       .uploadStarted (directoryOf channel publicKey) (base64Encode uuid)
         (encrypt channel env.nonce data)] := by
  unfold updateModel createDirectoryModel
  rw [if_neg (by omega), if_neg (by omega), hres]
  dsimp only
  cases env.uploadResult with
  | ok u => rfl
  | error e => rfl

/-- Witness for C3 at concrete inputs with a cached shared link. -/
theorem update_speculative_before_upload_witness :
    (List.replicate 16 0).length = 16 ∧ (List.replicate 32 0).length = 32 ∧
      resolvedSharedLink
        { cachedSharedLink := some "sl", backendSharedLink := .ok "sl",
          existing := none, uploadResult := .ok (), nonce := List.replicate 24 0 } =
        .ok "sl" ∧
      (updateModel "c" (List.replicate 32 0) (List.replicate 16 0) [5]
        { cachedSharedLink := some "sl", backendSharedLink := .ok "sl",
          existing := none, uploadResult := .ok (), nonce := List.replicate 24 0 }).1.take 2 =
        [.dispatched "sl" (.update (base64Encode (List.replicate 16 0)) [5]),
         .uploadStarted (directoryOf "c" (List.replicate 32 0))
           (base64Encode (List.replicate 16 0))
           (encrypt "c" (List.replicate 24 0) [5])] :=
  ⟨by decide, by decide, rfl,
    update_speculative_before_upload "c" (List.replicate 32 0) (List.replicate 16 0) [5]
      _ "sl" (by decide) (by decide) rfl⟩

/-- C4: if the backend upload inside `update` fails, a compensating
speculative event — the previously cached value if one existed,
otherwise a delete — is dispatched after the upload, and the original
upload error is then re-raised to the caller unchanged. -/
theorem update_failure_compensates (channel : String)
    (publicKey uuid data : List Nat) (env : UpdateEnv) (sharedLink : String)
    (e : String)
    (h16 : uuid.length = 16) (h32 : publicKey.length = 32)
    (hres : resolvedSharedLink env = .ok sharedLink)
    (hfail : env.uploadResult = .error e) :
    updateModel channel publicKey uuid data env =
      ([.dispatched sharedLink (.update (base64Encode uuid) data),
        .uploadStarted (directoryOf channel publicKey) (base64Encode uuid)
          (encrypt channel env.nonce data),
        .dispatched sharedLink
          (match env.existing with
           | some entry => OptimisticValue.update (base64Encode uuid) entry.data
           | none => OptimisticValue.delete (base64Encode uuid))],
        .error e) := by
  unfold updateModel createDirectoryModel
  rw [if_neg (by omega), if_neg (by omega), hres]
  dsimp only
  rw [hfail]

/-- Witness for C4: a failing upload with a previously cached value. -/
theorem update_failure_compensates_witness :
    (List.replicate 16 0).length = 16 ∧ (List.replicate 32 0).length = 32 ∧
      updateModel "c" (List.replicate 32 0) (List.replicate 16 0) [5]
        { cachedSharedLink := some "sl", backendSharedLink := .ok "sl",
          existing := some { uuid := List.replicate 16 0, sharedLink := "sl", data := [9] },
          uploadResult := .error "network down", nonce := List.replicate 24 0 } =
        ([.dispatched "sl" (.update (base64Encode (List.replicate 16 0)) [5]),
          .uploadStarted (directoryOf "c" (List.replicate 32 0))
            (base64Encode (List.replicate 16 0))
            (encrypt "c" (List.replicate 24 0) [5]),
          .dispatched "sl" (.update (base64Encode (List.replicate 16 0)) [9])],
          .error "network down") :=
  ⟨by decide, by decide,
    update_failure_compensates "c" (List.replicate 32 0) (List.replicate 16 0) [5]
      _ "sl" "network down" (by decide) (by decide) rfl rfl⟩

/-! ## `index.ts`: `getPublicKey` and the un-awaited `verify`

```ts
export type VerifyFunction = (
  signature: Uint8Array,
  message: Uint8Array,
  publicKey: Uint8Array,
) => Promise<boolean> | boolean;
```

`getPublicKey` tests `if (!verify(signature, sharedLinkBytes,
publicKey))` without awaiting the returned value.  When the supplied
capability returns a `Promise<boolean>` — which its declared type
permits, and which the repository's own test helpers do — the promise
object is truthy regardless of the boolean it resolves to, so the
negation is always false and `InvalidSignature` is unreachable. -/

/-- Value returned by a caller-supplied `VerifyFunction`: a plain
boolean or a promise resolving to one. -/
inductive VerifyResult
  | sync (b : Bool)
  | promise (resolvesTo : Bool)
deriving DecidableEq, Repr

/-- JS truthiness of the un-awaited `verify(...)` return value: a
`Promise` object is truthy regardless of what it resolves to. -/
def jsTruthy : VerifyResult → Bool
  | .sync b => b
  | .promise _ => true

/-- UTF-8 bytes of one code point (model of `TextEncoder`). -/
def utf8EncodeChar (c : Char) : List Nat :=
  let n := c.toNat
  if n < 128 then [n]
  else if n < 2048 then [192 + n / 64, 128 + n % 64]
  else if n < 65536 then [224 + n / 4096, 128 + n / 64 % 64, 128 + n % 64]
  else [240 + n / 262144, 128 + n / 4096 % 64, 128 + n / 64 % 64, 128 + n % 64]

/-- `new TextEncoder().encode(s)`. -/
def utf8Encode (s : String) : List Nat :=
  (s.data.map utf8EncodeChar).flatten

/-- Environment of one `getPublicKey` call. -/
structure GetPublicKeyEnv where
  /-- `public-keys` cache entry for the shared link, if any. -/
  cachedKey : Option (List Nat)
  /-- Outcome of `dropbox.downloadFile(sharedLink, "signature")`. -/
  downloadResult : Except String (List Nat)

inductive GetPublicKeyError
  | signatureNotFound
  | invalidSignature
  | decryptFailed (e : DecryptError)
  | backend (msg : String)
deriving DecidableEq, Repr

/-- `getPublicKey(channel, sharedLink, verify)` from `index.ts`: cached
key, else download the envelope (mapping the backend's "File not
found" to "Signature not found"), decrypt under the channel, split at
byte 32, and test `!verify(...)` on the un-awaited return value. -/
def getPublicKeyModel (channel sharedLink : String)
    (verify : List Nat → List Nat → List Nat → VerifyResult)
    (env : GetPublicKeyEnv) : Except GetPublicKeyError (List Nat) :=
  match env.cachedKey with
  | some k => .ok k
  | none =>
    match env.downloadResult with
    | .error e =>
      if e = "File not found" then .error .signatureNotFound
      else .error (.backend e)
    | .ok encrypted =>
      match decrypt channel encrypted with
      | .error e => .error (.decryptFailed e)
      | .ok decrypted =>
        let publicKey := decrypted.take 32
        let signature := decrypted.drop 32
        if jsTruthy (verify signature (utf8Encode sharedLink) publicKey) = false then
          .error .invalidSignature
        else .ok publicKey

/-- C1 (code bug): with no cached key and a well-formed downloaded
envelope, a `verify` capability that returns a `Promise` resolving to
`false` — permitted by the declared `VerifyFunction` type — does NOT
make `getPublicKey` fail with `InvalidSignature`: the un-awaited
promise is truthy, so the key is cached and returned.  The same
mismatch with a synchronous `verify` does fail as the claim states. -/
theorem getPublicKey_async_verify_bug :
    getPublicKeyModel "c" "sl" (fun _ _ _ => .promise false)
      { cachedKey := none,
        downloadResult := .ok (encrypt "c" (List.replicate 24 0)
          (List.replicate 32 7 ++ [1, 2, 3])) } =
      .ok (List.replicate 32 7) ∧
    getPublicKeyModel "c" "sl" (fun _ _ _ => .sync false)
      { cachedKey := none,
        downloadResult := .ok (encrypt "c" (List.replicate 24 0)
          (List.replicate 32 7 ++ [1, 2, 3])) } =
      .error .invalidSignature := by
  have hdec := decrypt_encrypt_eq "c" (List.replicate 32 7 ++ [1, 2, 3])
    (List.replicate 24 0) (by decide)
  have htake : (List.replicate 32 7 ++ [1, 2, 3]).take 32 = List.replicate 32 7 :=
    List.take_left' (by decide)
  constructor
  · unfold getPublicKeyModel
    dsimp only
    rw [hdec]
    dsimp only [jsTruthy]
    rw [if_neg (by decide), htake]
  · unfold getPublicKeyModel
    dsimp only
    rw [hdec]
    dsimp only [jsTruthy]
    rw [if_pos rfl]

/-! ## `src/dropbox.ts`: the change-feed iterator `listFiles`

`listFiles(sharedLink, { cursor, signal })` is an async generator.
Start: with no resume cursor it awaits an initial `filesListFolder`
(mapping a `path/not_found` backend error to `"Path not found"`);
with a cursor it starts the loop directly with an empty buffer and
`hasMore = true`.  It then builds `signalPromise`, registers the abort
listener, and loops: a live `signal.aborted` check at the top; drain
the entries buffer (one wrapped download and one `update` emission per
downloadable file entry, one `delete` emission per deletion marker,
then one `cursor` emission); else a wrapped `filesListFolderContinue`
when `hasMore`; else emit `backlog-complete` the first time and await
a wrapped `filesListFolderLongpoll`, then a wrapped backoff sleep if
requested.

The run is embedded as an interpreter producing the ordered trace of
awaited operations, emissions and termination.  The abort listener is
registered after the initial listing, and the initial listing is not
wrapped in `signalPromise`: firing the signal during it does not
reject the pending await; the reason is only raised at the loop-top
check once the listing settles.  `abortAt = some k` models the signal
firing while the `k`-th awaited operation of the run is outstanding.
The login check at entry is elided (the client is modelled as logged
in). -/

inductive EntryTag
  | file
  | folder
  | deleted
deriving DecidableEq, Repr

/-- One entry of a Dropbox listing page. -/
structure Entry where
  tag : EntryTag
  name : String
  isDownloadable : Bool
deriving DecidableEq, Repr

/-- Result of `filesListFolder` / `filesListFolderContinue`. -/
structure PageResult where
  cursor : String
  hasMore : Bool
  entries : List Entry
deriving DecidableEq, Repr

/-- Result of `filesListFolderLongpoll`. -/
structure PollResult where
  changes : Bool
  backoff : Option Nat
deriving DecidableEq, Repr

/-- A backend operation awaited by `listFiles`. -/
inductive LFOp
  | initialList (sharedLink : String)
  | download (sharedLink name : String)
  | listContinue (cursor : String)
  | longpoll (cursor : String)
  | sleep (seconds : Nat)
deriving DecidableEq, Repr

/-- Whether an awaited operation is wrapped in `signalPromise`: every
await inside the loop is; the initial listing at Start is not. -/
def opWrapped : LFOp → Bool
  | .initialList _ => false
  | _ => true

/-- Backend responses, addressed by the index of the awaited operation
within the run. -/
structure LFEnv where
  initResult : Except String PageResult
  download : Nat → Except String (List Nat)
  listContinue : Nat → Except String PageResult
  longpoll : Nat → Except String PollResult

/-- One item of a run's trace: an operation being started, settling
(normally or rejected by the abort listener), an event emission, or
the generator raising an error. -/
inductive TraceItem
  | started (op : LFOp)
  | opCompleted
  | opAborted (reason : String)
  | emitted (e : FileListResult)
  | threw (msg : String)
deriving DecidableEq, Repr

/-- Iterator state between loop iterations. -/
structure IterState where
  backlogComplete : Bool
  cursor : String
  hasMore : Bool
  entries : List Entry
  opIdx : Nat
deriving DecidableEq, Repr

/-- Await one signal-wrapped backend operation: if the cancellation
signal fires while it is outstanding, the pending promise rejects with
the signal's reason and the generator terminates raising it; a backend
failure likewise propagates and ends the run; otherwise the
continuation runs on the result. -/
def issueWrapped {α : Type} (abortAt : Option Nat) (reason : String) (opIdx : Nat)
    (op : LFOp) (result : Except String α) (cont : α → List TraceItem) :
    List TraceItem :=
  TraceItem.started op ::
    (if abortAt = some opIdx then [.opAborted reason, .threw reason]
     else
       match result with
       | .error msg => [.threw msg]
       | .ok a => TraceItem.opCompleted :: cont a)

/-- Drain the pending entries buffer: one wrapped download and one
`update` emission per downloadable file entry, one `delete` emission
per deletion marker.  Returns the trace, the operation counter
afterwards, and whether the run died during the drain. -/
def drainEntries (env : LFEnv) (abortAt : Option Nat) (reason : String)
    (sharedLink : String) : List Entry → Nat → List TraceItem × Nat × Bool
  | [], opIdx => ([], opIdx, false)
  | entry :: rest, opIdx =>
    if entry.tag = EntryTag.file ∧ entry.isDownloadable = true then
      if abortAt = some opIdx then
        (issueWrapped abortAt reason opIdx (.download sharedLink entry.name)
          (env.download opIdx) (fun _ => ([] : List TraceItem)), opIdx + 1, true)
      else
        match env.download opIdx with
        | .error msg =>
          (issueWrapped abortAt reason opIdx (.download sharedLink entry.name)
            (Except.error msg : Except String (List Nat)) (fun _ => []), opIdx + 1, true)
        | .ok data =>
          let next := drainEntries env abortAt reason sharedLink rest (opIdx + 1)
          (issueWrapped abortAt reason opIdx (.download sharedLink entry.name)
            (.ok data)
            (fun d => TraceItem.emitted (.update entry.name d) :: next.1),
            next.2.1, next.2.2)
    else if entry.tag = EntryTag.deleted then
      let next := drainEntries env abortAt reason sharedLink rest opIdx
      (TraceItem.emitted (.delete entry.name) :: next.1, next.2.1, next.2.2)
    else
      drainEntries env abortAt reason sharedLink rest opIdx

/-- The main loop of `listFiles`, bounded by `fuel` iterations.
`fired` records whether the signal fired during the (unwrapped)
initial listing, which the loop-top `signal.aborted` check observes. -/
def listFilesLoop (env : LFEnv) (abortAt : Option Nat) (reason : String)
    (sharedLink : String) : Nat → IterState → Bool → List TraceItem
  | 0, _, _ => []
  | fuel + 1, st, fired =>
    if fired then [.threw reason]
    else if st.entries ≠ [] then
      let drained := drainEntries env abortAt reason sharedLink st.entries st.opIdx
      if drained.2.2 then drained.1
      else
        drained.1 ++ TraceItem.emitted (.cursor st.cursor) ::
          listFilesLoop env abortAt reason sharedLink fuel
            { st with entries := [], opIdx := drained.2.1 } fired
    else if st.hasMore then
      issueWrapped abortAt reason st.opIdx (.listContinue st.cursor)
        (env.listContinue st.opIdx)
        (fun page =>
          listFilesLoop env abortAt reason sharedLink fuel
            { backlogComplete := st.backlogComplete, cursor := page.cursor,
              hasMore := page.hasMore, entries := page.entries,
              opIdx := st.opIdx + 1 } fired)
    else
      (if st.backlogComplete then ([] : List TraceItem)
       else [TraceItem.emitted .backlogComplete]) ++
        issueWrapped abortAt reason st.opIdx (.longpoll st.cursor)
          (env.longpoll st.opIdx)
          (fun poll =>
            match poll.backoff with
            | none =>
              listFilesLoop env abortAt reason sharedLink fuel
                { backlogComplete := true, cursor := st.cursor,
                  hasMore := poll.changes, entries := [],
                  opIdx := st.opIdx + 1 } fired
            | some secs =>
              issueWrapped abortAt reason (st.opIdx + 1) (.sleep secs)
                (Except.ok () : Except String Unit)
                (fun _ =>
                  listFilesLoop env abortAt reason sharedLink fuel
                    { backlogComplete := true, cursor := st.cursor,
                      hasMore := poll.changes, entries := [],
                      opIdx := st.opIdx + 2 } fired))

/-- A whole `listFiles` run: Start phase, then the loop. -/
def listFiles (env : LFEnv) (abortAt : Option Nat) (reason : String)
    (sharedLink : String) (cursorOpt : Option String) (fuel : Nat) :
    List TraceItem :=
  match cursorOpt with
  | some c =>
    listFilesLoop env abortAt reason sharedLink fuel
      { backlogComplete := false, cursor := c, hasMore := true,
        entries := [], opIdx := 0 } false
  | none =>
    TraceItem.started (.initialList sharedLink) ::
      (match env.initResult with
       | .error msg =>
         if msg = "path/not_found" then [.threw "Path not found"]
         else [.threw msg]
       | .ok page =>
         TraceItem.opCompleted ::
           listFilesLoop env abortAt reason sharedLink fuel
             { backlogComplete := false, cursor := page.cursor,
               hasMore := page.hasMore, entries := page.entries, opIdx := 1 }
             (abortAt = some 0))

/-! ### Trace predicates for the iterator claims -/

/-- Is a trace item the emission of `backlog-complete`? -/
def isBacklogEmit : TraceItem → Bool
  | .emitted .backlogComplete => true
  | _ => false

/-- Is a trace item the start of a long-poll call? -/
def isLongpollStart : TraceItem → Bool
  | .started (.longpoll _) => true
  | _ => false

/-- Is a trace item the start of any awaited operation? -/
def startsOp : TraceItem → Bool
  | .started _ => true
  | _ => false

/-- Scan of a trace checking that every `backlog-complete` emission is
immediately followed by the start of a long-poll call;
`prevWasBacklog` records whether the previous item emitted
`backlog-complete`. -/
def backlogAdjacentFrom (prevWasBacklog : Bool) : List TraceItem → Bool
  | [] => !prevWasBacklog
  | t :: rest =>
    (if prevWasBacklog then isLongpollStart t else true) &&
      backlogAdjacentFrom (isBacklogEmit t) rest

/-- Every `backlog-complete` emission is immediately followed by the
start of a long-poll call. -/
def backlogAdjacent (l : List TraceItem) : Bool := backlogAdjacentFrom false l

/-- No long-poll call starts before a `backlog-complete` emission. -/
def noLongpollBeforeBacklog : List TraceItem → Bool
  | [] => true
  | t :: rest =>
    if isLongpollStart t then false
    else if isBacklogEmit t then true
    else noLongpollBeforeBacklog rest

/-- Generic closure principle for the items produced by one wrapped
backend operation. -/
theorem issueWrapped_forall {α : Type} (abortAt : Option Nat) (reason : String)
    (opIdx : Nat) (op : LFOp) (result : Except String α)
    (cont : α → List TraceItem) (P : TraceItem → Prop)
    (hop : P (.started op)) (hab : P (.opAborted reason))
    (hthrew : ∀ m, P (.threw m)) (hcomp : P .opCompleted)
    (hcont : ∀ a, ∀ t ∈ cont a, P t) :
    ∀ t ∈ issueWrapped abortAt reason opIdx op result cont, P t := by
  intro t ht
  unfold issueWrapped at ht
  rcases List.mem_cons.mp ht with rfl | ht
  · exact hop
  · split at ht
    · simp only [List.mem_cons, List.not_mem_nil, or_false] at ht
      rcases ht with rfl | rfl
      · exact hab
      · exact hthrew _
    · match hres : result with
      | .error m =>
        dsimp only at ht
        simp only [List.mem_cons, List.not_mem_nil, or_false] at ht
        subst ht
        exact hthrew _
      | .ok a =>
        dsimp only at ht
        rcases List.mem_cons.mp ht with rfl | ht
        · exact hcomp
        · exact hcont a t ht

/-- Generic closure principle for the items produced by draining the
entries buffer. -/
theorem drainEntries_forall (env : LFEnv) (abortAt : Option Nat) (reason : String)
    (sharedLink : String) (P : TraceItem → Prop)
    (hstart : ∀ sl n, P (.started (.download sl n))) (hab : P (.opAborted reason))
    (hthrew : ∀ m, P (.threw m)) (hcomp : P .opCompleted)
    (hemitU : ∀ n d, P (.emitted (.update n d)))
    (hemitD : ∀ n, P (.emitted (.delete n))) :
    ∀ (entries : List Entry) (opIdx : Nat),
      ∀ t ∈ (drainEntries env abortAt reason sharedLink entries opIdx).1, P t := by
  intro entries
  induction entries with
  | nil => intro opIdx t ht; exact absurd ht (List.not_mem_nil t)
  | cons entry rest ih =>
    intro opIdx t ht
    rw [drainEntries] at ht
    split at ht
    · split at ht
      · dsimp only at ht
        exact issueWrapped_forall _ _ _ _ _ _ P (hstart _ _) hab hthrew hcomp
          (fun a t ht => absurd ht (List.not_mem_nil t)) t ht
      · split at ht
        · dsimp only at ht
          exact issueWrapped_forall _ _ _ _ _ _ P (hstart _ _) hab hthrew hcomp
            (fun a t ht => absurd ht (List.not_mem_nil t)) t ht
        · dsimp only at ht
          exact issueWrapped_forall _ _ _ _ _ _ P (hstart _ _) hab hthrew hcomp
            (fun a t ht' => by
              rcases List.mem_cons.mp ht' with rfl | ht'
              · exact hemitU _ _
              · exact ih _ t ht') t ht
    · split at ht
      · dsimp only at ht
        rcases List.mem_cons.mp ht with rfl | ht
        · exact hemitD _
        · exact ih _ t ht
      · exact ih _ t ht

theorem backlogAdjacentFrom_append (x y : List TraceItem)
    (hx : ∀ t ∈ x, isBacklogEmit t = false) :
    backlogAdjacentFrom false (x ++ y) = backlogAdjacentFrom false y := by
  induction x with
  | nil => rfl
  | cons t rest ih =>
    rw [List.cons_append, backlogAdjacentFrom, hx t (by simp)]
    simp only [if_neg Bool.false_ne_true, Bool.true_and]
    exact ih (fun t ht => hx t (by simp [ht]))

theorem backlogAdjacent_append (x y : List TraceItem)
    (hx : ∀ t ∈ x, isBacklogEmit t = false) :
    backlogAdjacent (x ++ y) = backlogAdjacent y :=
  backlogAdjacentFrom_append x y hx

theorem noLongpollBeforeBacklog_append (x y : List TraceItem)
    (hx : ∀ t ∈ x, isBacklogEmit t = false ∧ isLongpollStart t = false) :
    noLongpollBeforeBacklog (x ++ y) = noLongpollBeforeBacklog y := by
  induction x with
  | nil => rfl
  | cons t rest ih =>
    rw [List.cons_append, noLongpollBeforeBacklog,
      if_neg (by simp [(hx t (by simp)).2]), if_neg (by simp [(hx t (by simp)).1])]
    exact ih (fun t ht => hx t (by simp [ht]))

theorem countP_eq_zero_of_forall (p : TraceItem → Bool) (x : List TraceItem)
    (hx : ∀ t ∈ x, p t = false) : x.countP p = 0 :=
  List.countP_eq_zero.mpr (by intro t ht; simp [hx t ht])

/-- Items of a drained buffer are never `backlog-complete` emissions
nor long-poll starts. -/
theorem drainEntries_items (env : LFEnv) (abortAt : Option Nat) (reason : String)
    (sharedLink : String) (entries : List Entry) (opIdx : Nat) :
    ∀ t ∈ (drainEntries env abortAt reason sharedLink entries opIdx).1,
      isBacklogEmit t = false ∧ isLongpollStart t = false := by
  refine drainEntries_forall env abortAt reason sharedLink _ ?_ ?_ ?_ ?_ ?_ ?_ entries opIdx
  · intro sl n; exact ⟨rfl, rfl⟩
  · exact ⟨rfl, rfl⟩
  · intro m; exact ⟨rfl, rfl⟩
  · exact ⟨rfl, rfl⟩
  · intro n d; exact ⟨rfl, rfl⟩
  · intro n; exact ⟨rfl, rfl⟩

@[simp] theorem isBacklogEmit_started (op : LFOp) :
    isBacklogEmit (.started op) = false := rfl

@[simp] theorem isBacklogEmit_opCompleted : isBacklogEmit .opCompleted = false := rfl

@[simp] theorem isBacklogEmit_opAborted (r : String) :
    isBacklogEmit (.opAborted r) = false := rfl

@[simp] theorem isBacklogEmit_threw (m : String) :
    isBacklogEmit (.threw m) = false := rfl

@[simp] theorem isBacklogEmit_emitted_cursor (c : String) :
    isBacklogEmit (.emitted (.cursor c)) = false := rfl

@[simp] theorem isBacklogEmit_emitted_backlog :
    isBacklogEmit (.emitted .backlogComplete) = true := rfl

@[simp] theorem isLongpollStart_longpoll (c : String) :
    isLongpollStart (.started (.longpoll c)) = true := rfl

@[simp] theorem isLongpollStart_listContinue (c : String) :
    isLongpollStart (.started (.listContinue c)) = false := rfl

@[simp] theorem isLongpollStart_opCompleted : isLongpollStart .opCompleted = false := rfl

@[simp] theorem isLongpollStart_opAborted (r : String) :
    isLongpollStart (.opAborted r) = false := rfl

@[simp] theorem isLongpollStart_threw (m : String) :
    isLongpollStart (.threw m) = false := rfl

@[simp] theorem isLongpollStart_emitted (e : FileListResult) :
    isLongpollStart (.emitted e) = false := rfl

@[simp] theorem isLongpollStart_started_initial (sl : String) :
    isLongpollStart (.started (.initialList sl)) = false := rfl

theorem issueWrapped_countP_le {α : Type} (abortAt : Option Nat) (reason : String)
    (opIdx : Nat) (op : LFOp) (result : Except String α)
    (cont : α → List TraceItem) (p : TraceItem → Bool) (k : Nat)
    (hop : p (.started op) = false) (hab : p (.opAborted reason) = false)
    (hthrew : ∀ m, p (.threw m) = false) (hcomp : p .opCompleted = false)
    (hcont : ∀ a, (cont a).countP p ≤ k) :
    (issueWrapped abortAt reason opIdx op result cont).countP p ≤ k := by
  unfold issueWrapped
  split
  · simp [List.countP_cons, hop, hab, hthrew]
  · cases result with
    | error m => simp [List.countP_cons, hop, hthrew]
    | ok a =>
      have h := hcont a
      simp only [List.countP_cons, hop, hcomp]
      simpa using h

theorem issueWrapped_backlogAdjacentFrom {α : Type} (b : Bool) (abortAt : Option Nat)
    (reason : String) (opIdx : Nat) (op : LFOp) (result : Except String α)
    (cont : α → List TraceItem)
    (hfirst : b = true → isLongpollStart (.started op) = true)
    (hcont : ∀ a, backlogAdjacentFrom false (cont a) = true) :
    backlogAdjacentFrom b (issueWrapped abortAt reason opIdx op result cont) = true := by
  unfold issueWrapped
  rw [backlogAdjacentFrom]
  have hfst : (if b = true then isLongpollStart (.started op) else true) = true := by
    cases b with
    | false => rfl
    | true => simpa using hfirst rfl
  rw [hfst, isBacklogEmit_started]
  simp only [Bool.true_and]
  split
  · rfl
  · cases result with
    | error m => rfl
    | ok a =>
      rw [backlogAdjacentFrom, isBacklogEmit_opCompleted]
      simpa using hcont a

theorem issueWrapped_noLongpoll {α : Type} (abortAt : Option Nat) (reason : String)
    (opIdx : Nat) (c : String) (result : Except String α)
    (cont : α → List TraceItem)
    (hcont : ∀ a, noLongpollBeforeBacklog (cont a) = true) :
    noLongpollBeforeBacklog
      (issueWrapped abortAt reason opIdx (.listContinue c) result cont) = true := by
  unfold issueWrapped
  rw [noLongpollBeforeBacklog, if_neg (by simp), if_neg (by simp)]
  split
  · rfl
  · cases result with
    | error m => rfl
    | ok a =>
      rw [noLongpollBeforeBacklog, if_neg (by simp), if_neg (by simp)]
      exact hcont a

/-- The loop emits at most one `backlog-complete`, and none once the
flag is set. -/
theorem listFilesLoop_backlog_count (env : LFEnv) (abortAt : Option Nat)
    (reason : String) (sharedLink : String) :
    ∀ (fuel : Nat) (st : IterState) (fired : Bool),
      (listFilesLoop env abortAt reason sharedLink fuel st fired).countP isBacklogEmit ≤
        (if st.backlogComplete then 0 else 1) := by
  intro fuel
  induction fuel with
  | zero =>
    intro st fired
    simp [listFilesLoop]
  | succ n ih =>
    intro st fired
    rw [listFilesLoop]
    have hfree : ∀ t ∈ (drainEntries env abortAt reason sharedLink st.entries st.opIdx).1,
        isBacklogEmit t = false :=
      fun t ht => (drainEntries_items env abortAt reason sharedLink st.entries st.opIdx t ht).1
    split
    · simp
    · split
      · dsimp only
        split
        · rw [countP_eq_zero_of_forall _ _ hfree]
          simp
        · rw [List.countP_append, countP_eq_zero_of_forall _ _ hfree,
            List.countP_cons]
          have h := ih
            ⟨st.backlogComplete, st.cursor, st.hasMore, [],
              (drainEntries env abortAt reason sharedLink st.entries st.opIdx).2.1⟩ fired
          simpa using h
      · split
        · refine issueWrapped_countP_le _ _ _ _ _ _ _ _ rfl rfl (fun m => rfl) rfl ?_
          intro page
          exact ih ⟨st.backlogComplete, page.cursor, page.hasMore, page.entries,
            st.opIdx + 1⟩ fired
        · rw [List.countP_append]
          have hissue : (issueWrapped abortAt reason st.opIdx (.longpoll st.cursor)
              (env.longpoll st.opIdx)
              (fun poll =>
                match poll.backoff with
                | none =>
                  listFilesLoop env abortAt reason sharedLink n
                    { backlogComplete := true, cursor := st.cursor,
                      hasMore := poll.changes, entries := [],
                      opIdx := st.opIdx + 1 } fired
                | some secs =>
                  issueWrapped abortAt reason (st.opIdx + 1) (.sleep secs)
                    (Except.ok () : Except String Unit)
                    (fun _ =>
                      listFilesLoop env abortAt reason sharedLink n
                        { backlogComplete := true, cursor := st.cursor,
                          hasMore := poll.changes, entries := [],
                          opIdx := st.opIdx + 2 } fired))).countP isBacklogEmit ≤ 0 := by
            refine issueWrapped_countP_le _ _ _ _ _ _ _ _ rfl rfl (fun m => rfl) rfl ?_
            intro poll
            cases hback : poll.backoff with
            | none =>
              have h := ih ⟨true, st.cursor, poll.changes, [], st.opIdx + 1⟩ fired
              simpa using h
            | some secs =>
              refine issueWrapped_countP_le _ _ _ _ _ _ _ _ rfl rfl (fun m => rfl) rfl ?_
              intro a
              have h := ih ⟨true, st.cursor, poll.changes, [], st.opIdx + 2⟩ fired
              simpa using h
          split
          · simpa using hissue
          · have hpre : List.countP isBacklogEmit [TraceItem.emitted .backlogComplete] = 1 := by
              simp
            omega

/-- Every `backlog-complete` the loop emits is immediately followed by
the start of a long-poll call. -/
theorem listFilesLoop_backlogAdjacent (env : LFEnv) (abortAt : Option Nat)
    (reason : String) (sharedLink : String) :
    ∀ (fuel : Nat) (st : IterState) (fired : Bool),
      backlogAdjacent (listFilesLoop env abortAt reason sharedLink fuel st fired) = true := by
  intro fuel
  induction fuel with
  | zero => intro st fired; rfl
  | succ n ih =>
    intro st fired
    rw [listFilesLoop]
    have hfree : ∀ t ∈ (drainEntries env abortAt reason sharedLink st.entries st.opIdx).1,
        isBacklogEmit t = false :=
      fun t ht => (drainEntries_items env abortAt reason sharedLink st.entries st.opIdx t ht).1
    split
    · rfl
    · split
      · dsimp only
        split
        · show backlogAdjacentFrom false _ = true
          have h := backlogAdjacentFrom_append
            (drainEntries env abortAt reason sharedLink st.entries st.opIdx).1 [] hfree
          rw [List.append_nil] at h
          rw [h]
          rfl
        · show backlogAdjacentFrom false _ = true
          rw [backlogAdjacentFrom_append _ _ hfree, backlogAdjacentFrom,
            isBacklogEmit_emitted_cursor]
          simpa using ih
            ⟨st.backlogComplete, st.cursor, st.hasMore, [],
              (drainEntries env abortAt reason sharedLink st.entries st.opIdx).2.1⟩ fired
      · split
        · refine issueWrapped_backlogAdjacentFrom false _ _ _ _ _ _ (by simp) ?_
          intro page
          exact ih ⟨st.backlogComplete, page.cursor, page.hasMore, page.entries,
            st.opIdx + 1⟩ fired
        · have hcont : ∀ poll : PollResult,
              backlogAdjacentFrom false
                (match poll.backoff with
                 | none =>
                   listFilesLoop env abortAt reason sharedLink n
                     { backlogComplete := true, cursor := st.cursor,
                       hasMore := poll.changes, entries := [],
                       opIdx := st.opIdx + 1 } fired
                 | some secs =>
                   issueWrapped abortAt reason (st.opIdx + 1) (.sleep secs)
                     (Except.ok () : Except String Unit)
                     (fun _ =>
                       listFilesLoop env abortAt reason sharedLink n
                         { backlogComplete := true, cursor := st.cursor,
                           hasMore := poll.changes, entries := [],
                           opIdx := st.opIdx + 2 } fired)) = true := by
            intro poll
            cases hback : poll.backoff with
            | none => exact ih _ fired
            | some secs =>
              refine issueWrapped_backlogAdjacentFrom false _ _ _ _ _ _ (by simp) ?_
              intro a
              exact ih _ fired
          split
          · rw [List.nil_append]
            exact issueWrapped_backlogAdjacentFrom false _ _ _ _ _ _ (by simp) hcont
          · rw [List.singleton_append]
            show backlogAdjacentFrom false _ = true
            rw [backlogAdjacentFrom, isBacklogEmit_emitted_backlog]
            simp only [if_neg Bool.false_ne_true, Bool.true_and]
            exact issueWrapped_backlogAdjacentFrom true _ _ _ _ _ _ (fun _ => by simp) hcont

/-- The loop starts no long-poll call before it has emitted
`backlog-complete`. -/
theorem listFilesLoop_noLongpoll (env : LFEnv) (abortAt : Option Nat)
    (reason : String) (sharedLink : String) :
    ∀ (fuel : Nat) (st : IterState) (fired : Bool),
      st.backlogComplete = false →
      noLongpollBeforeBacklog (listFilesLoop env abortAt reason sharedLink fuel st fired) = true := by
  intro fuel
  induction fuel with
  | zero => intro st fired _; rfl
  | succ n ih =>
    intro st fired hflag
    rw [listFilesLoop]
    have hfree := drainEntries_items env abortAt reason sharedLink st.entries st.opIdx
    split
    · rfl
    · split
      · dsimp only
        split
        · have h := noLongpollBeforeBacklog_append
            (drainEntries env abortAt reason sharedLink st.entries st.opIdx).1 [] hfree
          rw [List.append_nil] at h
          rw [h]
          rfl
        · rw [noLongpollBeforeBacklog_append _ _ hfree, noLongpollBeforeBacklog,
            if_neg (by simp), if_neg (by simp)]
          exact ih
            ⟨st.backlogComplete, st.cursor, st.hasMore, [],
              (drainEntries env abortAt reason sharedLink st.entries st.opIdx).2.1⟩
            fired hflag
      · split
        · refine issueWrapped_noLongpoll _ _ _ _ _ _ ?_
          intro page
          exact ih ⟨st.backlogComplete, page.cursor, page.hasMore, page.entries,
            st.opIdx + 1⟩ fired hflag
        · rw [if_neg (by simp [hflag]), List.singleton_append, noLongpollBeforeBacklog,
            if_neg (by simp), if_pos (by simp)]

/-- C5: every run of the change-feed iterator emits at most one
`backlog-complete` event over its whole trace; every emission is
immediately followed by the start of a long-poll call (it happens on
reaching the long-poll state, before that long-poll); and no long-poll
call is ever started before the emission. -/
theorem listFiles_backlog_once (env : LFEnv) (abortAt : Option Nat) (reason : String)
    (sharedLink : String) (cursorOpt : Option String) (fuel : Nat) :
    (listFiles env abortAt reason sharedLink cursorOpt fuel).countP isBacklogEmit ≤ 1 ∧
    backlogAdjacent (listFiles env abortAt reason sharedLink cursorOpt fuel) = true ∧
    noLongpollBeforeBacklog (listFiles env abortAt reason sharedLink cursorOpt fuel) = true := by
  unfold listFiles
  cases cursorOpt with
  | some c =>
    refine ⟨?_, ?_, ?_⟩
    · have h := listFilesLoop_backlog_count env abortAt reason sharedLink fuel
        ⟨false, c, true, [], 0⟩ false
      simpa using h
    · exact listFilesLoop_backlogAdjacent env abortAt reason sharedLink fuel _ false
    · exact listFilesLoop_noLongpoll env abortAt reason sharedLink fuel _ false rfl
  | none =>
    cases hres : env.initResult with
    | error m =>
      dsimp only
      split <;> exact ⟨by simp [List.countP_cons], rfl, rfl⟩
    | ok page =>
      dsimp only
      refine ⟨?_, ?_, ?_⟩
      · rw [List.countP_cons, List.countP_cons]
        have h := listFilesLoop_backlog_count env abortAt reason sharedLink fuel
          ⟨false, page.cursor, page.hasMore, page.entries, 1⟩ (abortAt = some 0)
        simpa using h
      · show backlogAdjacentFrom false _ = true
        rw [backlogAdjacentFrom, backlogAdjacentFrom, isBacklogEmit_started,
          isBacklogEmit_opCompleted]
        simpa using listFilesLoop_backlogAdjacent env abortAt reason sharedLink fuel _ _
      · rw [noLongpollBeforeBacklog, if_neg (by simp), if_neg (by simp),
          noLongpollBeforeBacklog, if_neg (by simp), if_neg (by simp)]
        exact listFilesLoop_noLongpoll env abortAt reason sharedLink fuel _ _ rfl

/-! ### Cancellation behaviour of the iterator -/

@[simp] theorem startsOp_started (op : LFOp) : startsOp (.started op) = true := rfl

@[simp] theorem startsOp_opCompleted : startsOp .opCompleted = false := rfl

@[simp] theorem startsOp_opAborted (r : String) : startsOp (.opAborted r) = false := rfl

@[simp] theorem startsOp_threw (m : String) : startsOp (.threw m) = false := rfl

@[simp] theorem startsOp_emitted (e : FileListResult) : startsOp (.emitted e) = false := rfl

/-- Does the item carry the signal's reason whenever it is an abort? -/
def abortReasonOk (reason : String) : TraceItem → Bool
  | .opAborted r => r == reason
  | _ => true

/-- The trace strictly after the first `opAborted`, if any. -/
def afterAborted : List TraceItem → Option (List TraceItem)
  | [] => none
  | TraceItem.opAborted _ :: rest => some rest
  | _ :: rest => afterAborted rest

@[simp] theorem afterAborted_nil : afterAborted [] = none := rfl

@[simp] theorem afterAborted_opAborted (r : String) (l : List TraceItem) :
    afterAborted (.opAborted r :: l) = some l := rfl

@[simp] theorem afterAborted_started (op : LFOp) (l : List TraceItem) :
    afterAborted (.started op :: l) = afterAborted l := rfl

@[simp] theorem afterAborted_opCompleted (l : List TraceItem) :
    afterAborted (.opCompleted :: l) = afterAborted l := rfl

@[simp] theorem afterAborted_emitted (e : FileListResult) (l : List TraceItem) :
    afterAborted (.emitted e :: l) = afterAborted l := rfl

@[simp] theorem afterAborted_threw (m : String) (l : List TraceItem) :
    afterAborted (.threw m :: l) = afterAborted l := rfl

theorem afterAborted_append (x y : List TraceItem)
    (hx : ∀ t ∈ x, ∀ r, t ≠ TraceItem.opAborted r) :
    afterAborted (x ++ y) = afterAborted y := by
  induction x with
  | nil => rfl
  | cons t rest ih =>
    rw [List.cons_append]
    have htail := ih (fun t ht r => hx t (by simp [ht]) r)
    cases t with
    | opAborted r => exact absurd rfl (hx _ (by simp) r)
    | started op => rw [afterAborted_started]; exact htail
    | opCompleted => rw [afterAborted_opCompleted]; exact htail
    | emitted e => rw [afterAborted_emitted]; exact htail
    | threw m => rw [afterAborted_threw]; exact htail

/-- Generic closure principle for the whole loop trace. -/
theorem listFilesLoop_forall (env : LFEnv) (abortAt : Option Nat) (reason : String)
    (sharedLink : String) (P : TraceItem → Prop)
    (hstart : ∀ op, P (.started op)) (hab : P (.opAborted reason))
    (hthrew : ∀ m, P (.threw m)) (hcomp : P .opCompleted)
    (hemit : ∀ e, P (.emitted e)) :
    ∀ (fuel : Nat) (st : IterState) (fired : Bool),
      ∀ t ∈ listFilesLoop env abortAt reason sharedLink fuel st fired, P t := by
  intro fuel
  induction fuel with
  | zero => intro st fired t ht; exact absurd ht (List.not_mem_nil t)
  | succ n ih =>
    intro st fired t ht
    rw [listFilesLoop] at ht
    split at ht
    · simp only [List.mem_cons, List.not_mem_nil, or_false] at ht
      subst ht
      exact hthrew _
    · split at ht
      · dsimp only at ht
        split at ht
        · exact drainEntries_forall env abortAt reason sharedLink P (fun _ _ => hstart _)
            hab hthrew hcomp (fun _ _ => hemit _) (fun _ => hemit _) _ _ t ht
        · rcases List.mem_append.mp ht with ht | ht
          · exact drainEntries_forall env abortAt reason sharedLink P (fun _ _ => hstart _)
              hab hthrew hcomp (fun _ _ => hemit _) (fun _ => hemit _) _ _ t ht
          · rcases List.mem_cons.mp ht with rfl | ht
            · exact hemit _
            · exact ih _ fired t ht
      · split at ht
        · exact issueWrapped_forall _ _ _ _ _ _ P (hstart _) hab hthrew hcomp
            (fun page t ht => ih _ fired t ht) t ht
        · rcases List.mem_append.mp ht with ht | ht
          · split at ht
            · exact absurd ht (List.not_mem_nil t)
            · simp only [List.mem_cons, List.not_mem_nil, or_false] at ht
              subst ht
              exact hemit _
          · refine issueWrapped_forall _ _ _ _ _ _ P (hstart _) hab hthrew hcomp
              ?_ t ht
            intro poll t ht
            cases hb : poll.backoff with
            | none =>
              rw [hb] at ht
              dsimp only at ht
              exact ih _ fired t ht
            | some secs =>
              rw [hb] at ht
              dsimp only at ht
              exact issueWrapped_forall _ _ _ _ _ _ P (hstart _) hab hthrew hcomp
                (fun _ t ht => ih _ fired t ht) t ht

theorem issueWrapped_afterAborted {α : Type} (abortAt : Option Nat) (reason : String)
    (opIdx : Nat) (op : LFOp) (result : Except String α)
    (cont : α → List TraceItem)
    (hcont : ∀ a, afterAborted (cont a) = none ∨
      afterAborted (cont a) = some [TraceItem.threw reason]) :
    afterAborted (issueWrapped abortAt reason opIdx op result cont) = none ∨
      afterAborted (issueWrapped abortAt reason opIdx op result cont) =
        some [TraceItem.threw reason] := by
  unfold issueWrapped
  rw [afterAborted_started]
  split
  · exact Or.inr rfl
  · cases result with
    | error m => exact Or.inl rfl
    | ok a =>
      rw [afterAborted_opCompleted]
      exact hcont a

/-- Drained buffers: the drain never aborts when it reports success,
and whenever it aborts the rest of its trace is exactly the raised
reason. -/
theorem drainEntries_afterAborted (env : LFEnv) (abortAt : Option Nat) (reason : String)
    (sharedLink : String) :
    ∀ (entries : List Entry) (opIdx : Nat),
      ((drainEntries env abortAt reason sharedLink entries opIdx).2.2 = false →
        ∀ t ∈ (drainEntries env abortAt reason sharedLink entries opIdx).1,
          ∀ r, t ≠ TraceItem.opAborted r) ∧
      (afterAborted (drainEntries env abortAt reason sharedLink entries opIdx).1 = none ∨
        afterAborted (drainEntries env abortAt reason sharedLink entries opIdx).1 =
          some [TraceItem.threw reason]) := by
  intro entries
  induction entries with
  | nil =>
    intro opIdx
    exact ⟨fun _ t ht => absurd ht (List.not_mem_nil t), Or.inl rfl⟩
  | cons entry rest ih =>
    intro opIdx
    by_cases h1 : entry.tag = EntryTag.file ∧ entry.isDownloadable = true
    · rw [drainEntries, if_pos h1]
      by_cases habort : abortAt = some opIdx
      · rw [if_pos habort]
        dsimp only
        refine ⟨fun hdied => absurd hdied (by simp), Or.inr ?_⟩
        unfold issueWrapped
        rw [if_pos habort]
        rfl
      · rw [if_neg habort]
        cases hdl : env.download opIdx with
        | error msg =>
          dsimp only
          refine ⟨fun hdied => absurd hdied (by simp), Or.inl ?_⟩
          unfold issueWrapped
          rw [if_neg habort]
          rfl
        | ok data =>
          dsimp only
          constructor
          · intro hdied t ht
            unfold issueWrapped at ht
            rw [if_neg habort] at ht
            dsimp only at ht
            rcases List.mem_cons.mp ht with rfl | ht
            · intro r; simp
            · rcases List.mem_cons.mp ht with rfl | ht
              · intro r; simp
              · rcases List.mem_cons.mp ht with rfl | ht
                · intro r; simp
                · exact (ih (opIdx + 1)).1 hdied t ht
          · unfold issueWrapped
            rw [if_neg habort]
            dsimp only
            rw [afterAborted_started, afterAborted_opCompleted, afterAborted_emitted]
            exact (ih (opIdx + 1)).2
    · rw [drainEntries, if_neg h1]
      by_cases h2 : entry.tag = EntryTag.deleted
      · rw [if_pos h2]
        dsimp only
        constructor
        · intro hdied t ht
          rcases List.mem_cons.mp ht with rfl | ht
          · intro r; simp
          · exact (ih opIdx).1 hdied t ht
        · rw [afterAborted_emitted]
          exact (ih opIdx).2
      · rw [if_neg h2]
        exact ih opIdx

/-- Once the signal has rejected a pending wrapped operation, the rest
of the loop's trace is exactly the raised reason. -/
theorem listFilesLoop_afterAborted (env : LFEnv) (abortAt : Option Nat) (reason : String)
    (sharedLink : String) :
    ∀ (fuel : Nat) (st : IterState) (fired : Bool),
      afterAborted (listFilesLoop env abortAt reason sharedLink fuel st fired) = none ∨
      afterAborted (listFilesLoop env abortAt reason sharedLink fuel st fired) =
        some [TraceItem.threw reason] := by
  intro fuel
  induction fuel with
  | zero => intro st fired; exact Or.inl rfl
  | succ n ih =>
    intro st fired
    rw [listFilesLoop]
    split
    · exact Or.inl rfl
    · split
      · dsimp only
        split
        · exact (drainEntries_afterAborted env abortAt reason sharedLink st.entries st.opIdx).2
        · next hdied =>
          have hfree := (drainEntries_afterAborted env abortAt reason
            sharedLink st.entries st.opIdx).1 (by simpa using hdied)
          rw [afterAborted_append _ _ hfree, afterAborted_emitted]
          exact ih _ fired
      · split
        · exact issueWrapped_afterAborted _ _ _ _ _ _ (fun page => ih _ fired)
        · have hpre : ∀ t ∈ (if st.backlogComplete then ([] : List TraceItem)
              else [TraceItem.emitted .backlogComplete]), ∀ r, t ≠ TraceItem.opAborted r := by
            split
            · intro t ht; exact absurd ht (List.not_mem_nil t)
            · intro t ht
              simp only [List.mem_cons, List.not_mem_nil, or_false] at ht
              subst ht
              intro r; simp
          rw [afterAborted_append _ _ hpre]
          refine issueWrapped_afterAborted _ _ _ _ _ _ ?_
          intro poll
          cases hb : poll.backoff with
          | none => exact ih _ fired
          | some secs =>
            exact issueWrapped_afterAborted _ _ _ _ _ _ (fun _ => ih _ fired)

theorem mem_issueWrapped_abort {α : Type} (reason : String) (opIdx : Nat) (op : LFOp)
    (result : Except String α) (cont : α → List TraceItem) (k : Nat) (h : k = opIdx) :
    TraceItem.opAborted reason ∈ issueWrapped (some k) reason opIdx op result cont := by
  unfold issueWrapped
  rw [if_pos (by rw [h])]
  simp

theorem mem_issueWrapped_cont {α : Type} (abortAt : Option Nat) (reason : String)
    (opIdx : Nat) (op : LFOp) (result : Except String α) (cont : α → List TraceItem)
    (a : α) (hres : result = .ok a) (hno : ¬abortAt = some opIdx)
    (hmem : TraceItem.opAborted reason ∈ cont a) :
    TraceItem.opAborted reason ∈ issueWrapped abortAt reason opIdx op result cont := by
  unfold issueWrapped
  rw [if_neg hno, hres]
  simp [hmem]

/-- Drained buffers under a signal firing during operation `k`: either
the drain is rejected with the reason, or it starts only operations of
index below `k` (one `started` item per consumed index). -/
theorem drainEntries_abort_hits (env : LFEnv) (reason : String) (sharedLink : String)
    (k : Nat) :
    ∀ (entries : List Entry) (opIdx : Nat), opIdx ≤ k →
      TraceItem.opAborted reason ∈
        (drainEntries env (some k) reason sharedLink entries opIdx).1 ∨
      ((drainEntries env (some k) reason sharedLink entries opIdx).1.countP startsOp =
          (drainEntries env (some k) reason sharedLink entries opIdx).2.1 - opIdx ∧
        opIdx ≤ (drainEntries env (some k) reason sharedLink entries opIdx).2.1 ∧
        (drainEntries env (some k) reason sharedLink entries opIdx).2.1 ≤ k) := by
  intro entries
  induction entries with
  | nil =>
    intro opIdx hle
    rw [drainEntries]
    exact Or.inr ⟨by simp, Nat.le_refl _, hle⟩
  | cons entry rest ih =>
    intro opIdx hle
    by_cases h1 : entry.tag = EntryTag.file ∧ entry.isDownloadable = true
    · rw [drainEntries, if_pos h1]
      by_cases habort : (some k : Option Nat) = some opIdx
      · rw [if_pos habort]
        dsimp only
        exact Or.inl (mem_issueWrapped_abort _ _ _ _ _ _ (by simpa using habort))
      · rw [if_neg habort]
        have hlt : opIdx < k := by
          rcases Nat.lt_or_ge opIdx k with h | h
          · exact h
          · exact absurd (congrArg some (Nat.le_antisymm hle h).symm) habort
        cases hdl : env.download opIdx with
        | error msg =>
          dsimp only
          refine Or.inr ⟨?_, by omega, by omega⟩
          unfold issueWrapped
          rw [if_neg habort]
          dsimp only
          rw [List.countP_cons, List.countP_cons, List.countP_nil]
          simp
        | ok data =>
          dsimp only
          rcases ih (opIdx + 1) (by omega) with hmem | ⟨hcount, hmono, hbound⟩
          · refine Or.inl ?_
            refine mem_issueWrapped_cont _ _ _ _ _ _ data rfl habort ?_
            exact List.mem_cons.mpr (Or.inr hmem)
          · refine Or.inr ⟨?_, by omega, hbound⟩
            unfold issueWrapped
            rw [if_neg habort]
            dsimp only
            rw [List.countP_cons, List.countP_cons, List.countP_cons, hcount]
            simp only [startsOp_started, startsOp_opCompleted, startsOp_emitted]
            simp
            omega
    · rw [drainEntries, if_neg h1]
      by_cases h2 : entry.tag = EntryTag.deleted
      · rw [if_pos h2]
        dsimp only
        rcases ih opIdx hle with hmem | ⟨hcount, hmono, hbound⟩
        · exact Or.inl (List.mem_cons.mpr (Or.inr hmem))
        · refine Or.inr ⟨?_, hmono, hbound⟩
          rw [List.countP_cons, hcount]
          simp
      · rw [if_neg h2]
        exact ih opIdx hle

/-- If the signal fires during wrapped operation `k` and the loop ever
issues it, the pending operation is rejected with the reason;
otherwise the loop starts only operations of index below `k`. -/
theorem listFilesLoop_abort_hits (env : LFEnv) (reason : String) (sharedLink : String)
    (k : Nat) :
    ∀ (fuel : Nat) (st : IterState), st.opIdx ≤ k →
      TraceItem.opAborted reason ∈
        listFilesLoop env (some k) reason sharedLink fuel st false ∨
      (listFilesLoop env (some k) reason sharedLink fuel st false).countP startsOp ≤
        k - st.opIdx := by
  intro fuel
  induction fuel with
  | zero => intro st hle; exact Or.inr (by simp [listFilesLoop])
  | succ n ih =>
    intro st hle
    rw [listFilesLoop, if_neg (by simp)]
    split
    · dsimp only
      rcases drainEntries_abort_hits env reason sharedLink k st.entries st.opIdx hle with
        hmem | ⟨hcount, hmono, hbound⟩
      · split
        · exact Or.inl hmem
        · exact Or.inl (List.mem_append.mpr (Or.inl hmem))
      · split
        · exact Or.inr (by omega)
        · rcases ih ⟨st.backlogComplete, st.cursor, st.hasMore, [],
              (drainEntries env (some k) reason sharedLink st.entries st.opIdx).2.1⟩
            hbound with hmem | hrec
          · exact Or.inl (List.mem_append.mpr (Or.inr (List.mem_cons.mpr (Or.inr hmem))))
          · refine Or.inr ?_
            rw [List.countP_append, List.countP_cons, hcount]
            simp only [startsOp_emitted]
            simp only at hrec
            simp
            omega
    · by_cases hk : st.opIdx = k
      · split
        · exact Or.inl (mem_issueWrapped_abort _ _ _ _ _ _ hk.symm)
        · refine Or.inl (List.mem_append.mpr (Or.inr
            (mem_issueWrapped_abort _ _ _ _ _ _ hk.symm)))
      · have hlt : st.opIdx < k := by omega
        have hno : ¬(some k : Option Nat) = some st.opIdx := by
          intro hcon
          exact hk (Option.some.inj hcon).symm
        split
        · cases hres : env.listContinue st.opIdx with
          | error msg =>
            refine Or.inr ?_
            unfold issueWrapped
            rw [if_neg hno]
            dsimp only
            rw [List.countP_cons, List.countP_cons, List.countP_nil]
            simp
            omega
          | ok page =>
            rcases ih ⟨st.backlogComplete, page.cursor, page.hasMore, page.entries,
                st.opIdx + 1⟩ (by dsimp only; omega) with hmem | hrec
            · exact Or.inl (mem_issueWrapped_cont _ _ _ _ _ _ page rfl hno hmem)
            · refine Or.inr ?_
              unfold issueWrapped
              rw [if_neg hno]
              dsimp only
              rw [List.countP_cons, List.countP_cons]
              simp only at hrec
              simp
              omega
        · have hprefix : (if st.backlogComplete then ([] : List TraceItem)
              else [TraceItem.emitted .backlogComplete]).countP startsOp = 0 := by
            split <;> simp
          cases hres : env.longpoll st.opIdx with
          | error msg =>
            refine Or.inr ?_
            rw [List.countP_append, hprefix]
            unfold issueWrapped
            rw [if_neg hno]
            dsimp only
            rw [List.countP_cons, List.countP_cons, List.countP_nil]
            simp
            omega
          | ok poll =>
            cases hb : poll.backoff with
            | none =>
              rcases ih ⟨true, st.cursor, poll.changes, [], st.opIdx + 1⟩
                (by dsimp only; omega) with hmem | hrec
              · refine Or.inl (List.mem_append.mpr (Or.inr ?_))
                refine mem_issueWrapped_cont _ _ _ _ _ _ poll rfl hno ?_
                rw [hb]
                exact hmem
              · refine Or.inr ?_
                rw [List.countP_append, hprefix]
                unfold issueWrapped
                rw [if_neg hno]
                dsimp only
                rw [hb]
                rw [List.countP_cons, List.countP_cons]
                simp only at hrec
                simp
                omega
            | some secs =>
              by_cases hk1 : st.opIdx + 1 = k
              · refine Or.inl (List.mem_append.mpr (Or.inr ?_))
                refine mem_issueWrapped_cont _ _ _ _ _ _ poll rfl hno ?_
                rw [hb]
                exact mem_issueWrapped_abort _ _ _ _ _ _ hk1.symm
              · have hno1 : ¬(some k : Option Nat) = some (st.opIdx + 1) := by
                  intro hcon
                  exact hk1 (Option.some.inj hcon).symm
                rcases ih ⟨true, st.cursor, poll.changes, [], st.opIdx + 2⟩
                  (by dsimp only; omega) with hmem | hrec
                · refine Or.inl (List.mem_append.mpr (Or.inr ?_))
                  refine mem_issueWrapped_cont _ _ _ _ _ _ poll rfl hno ?_
                  rw [hb]
                  exact mem_issueWrapped_cont _ _ _ _ _ _ () rfl hno1 hmem
                · refine Or.inr ?_
                  rw [List.countP_append, hprefix]
                  unfold issueWrapped
                  rw [if_neg hno]
                  dsimp only
                  rw [hb]
                  dsimp only
                  rw [if_neg hno1]
                  rw [List.countP_cons, List.countP_cons, List.countP_cons,
                    List.countP_cons]
                  simp only at hrec
                  simp
                  omega

/-- Every rejection in a run's trace carries the signal's reason. -/
theorem listFiles_abortReasonOk (env : LFEnv) (abortAt : Option Nat) (reason : String)
    (sharedLink : String) (cursorOpt : Option String) (fuel : Nat) :
    ∀ t ∈ listFiles env abortAt reason sharedLink cursorOpt fuel,
      abortReasonOk reason t = true := by
  have hP : ∀ (op : LFOp), abortReasonOk reason (.started op) = true := fun _ => rfl
  have hab : abortReasonOk reason (.opAborted reason) = true := by
    simp [abortReasonOk]
  unfold listFiles
  cases cursorOpt with
  | some c =>
    exact listFilesLoop_forall env abortAt reason sharedLink
      (fun t => abortReasonOk reason t = true) hP hab
      (fun _ => rfl) rfl (fun _ => rfl) fuel _ false
  | none =>
    intro t ht
    rcases List.mem_cons.mp ht with rfl | ht
    · exact hP _
    · revert ht
      cases hres : env.initResult with
      | error m =>
        dsimp only
        split
        · intro ht
          simp only [List.mem_cons, List.not_mem_nil, or_false] at ht
          subst ht
          rfl
        · intro ht
          simp only [List.mem_cons, List.not_mem_nil, or_false] at ht
          subst ht
          rfl
      | ok page =>
        intro ht
        rcases List.mem_cons.mp ht with rfl | ht
        · rfl
        · exact listFilesLoop_forall env abortAt reason sharedLink
            (fun t => abortReasonOk reason t = true) hP hab
            (fun _ => rfl) rfl (fun _ => rfl) fuel _ _ t ht

/-- Once any pending operation of a run is rejected, the rest of the
trace is exactly the raised reason. -/
theorem listFiles_afterAborted (env : LFEnv) (abortAt : Option Nat) (reason : String)
    (sharedLink : String) (cursorOpt : Option String) (fuel : Nat) :
    afterAborted (listFiles env abortAt reason sharedLink cursorOpt fuel) = none ∨
    afterAborted (listFiles env abortAt reason sharedLink cursorOpt fuel) =
      some [TraceItem.threw reason] := by
  unfold listFiles
  cases cursorOpt with
  | some c => exact listFilesLoop_afterAborted env abortAt reason sharedLink fuel _ false
  | none =>
    cases hres : env.initResult with
    | error m =>
      dsimp only
      split
      · rw [afterAborted_started, afterAborted_threw]
        exact Or.inl rfl
      · rw [afterAborted_started, afterAborted_threw]
        exact Or.inl rfl
    | ok page =>
      dsimp only
      rw [afterAborted_started, afterAborted_opCompleted]
      exact listFilesLoop_afterAborted env abortAt reason sharedLink fuel _ _

/-- C6 (amended): when the cancellation signal fires while the `k`-th
awaited operation of a run is outstanding: every rejection carries the
signal's reason; after a pending operation is rejected the trace
continues with exactly the raised reason — no further backend
operation is started and the iterator never stops silently; and for
every wrapped operation (every operation after Start, i.e. whenever a
resume cursor was supplied or `k > 0`) the run either never issues
operation `k` (fewer than `k + 1` operations started) or the pending
operation is rejected with the reason.  The initial listing at Start
is NOT signal-wrapped: a signal firing during it lets the listing
complete, and the reason is raised at the loop top before any further
operation. -/
theorem listFiles_cancellation (env : LFEnv) (reason : String) (sharedLink : String)
    (cursorOpt : Option String) (fuel : Nat) (k : Nat) :
    (∀ t ∈ listFiles env (some k) reason sharedLink cursorOpt fuel,
      abortReasonOk reason t = true) ∧
    (∀ rest, afterAborted (listFiles env (some k) reason sharedLink cursorOpt fuel) =
      some rest → rest = [TraceItem.threw reason]) ∧
    ((cursorOpt = none → 0 < k) →
      TraceItem.opAborted reason ∈ listFiles env (some k) reason sharedLink cursorOpt fuel ∨
      (listFiles env (some k) reason sharedLink cursorOpt fuel).countP startsOp ≤ k) ∧
    (∀ page : PageResult, cursorOpt = none → env.initResult = .ok page → k = 0 →
      0 < fuel →
      listFiles env (some k) reason sharedLink cursorOpt fuel =
        [.started (.initialList sharedLink), .opCompleted, .threw reason]) := by
  refine ⟨listFiles_abortReasonOk env (some k) reason sharedLink cursorOpt fuel, ?_, ?_, ?_⟩
  · intro rest hrest
    rcases listFiles_afterAborted env (some k) reason sharedLink cursorOpt fuel with h | h
    · rw [hrest] at h
      exact absurd h (by simp)
    · rw [hrest] at h
      exact (Option.some.inj h).symm ▸ rfl
  · intro hcur
    unfold listFiles
    cases cursorOpt with
    | some c =>
      have h := listFilesLoop_abort_hits env reason sharedLink k fuel
        ⟨false, c, true, [], 0⟩ (by dsimp only; omega)
      rcases h with hmem | hcount
      · exact Or.inl hmem
      · exact Or.inr (by simpa using hcount)
    | none =>
      have hk : 0 < k := hcur rfl
      cases hres : env.initResult with
      | error m =>
        dsimp only
        split
        · refine Or.inr ?_
          rw [List.countP_cons, List.countP_cons, List.countP_nil]
          simp only [startsOp_started, startsOp_threw]
          simp
          omega
        · refine Or.inr ?_
          rw [List.countP_cons, List.countP_cons, List.countP_nil]
          simp only [startsOp_started, startsOp_threw]
          simp
          omega
      | ok page =>
        dsimp only
        cases hd : decide ((some k : Option Nat) = some 0) with
        | true =>
          have hcon := of_decide_eq_true hd
          simp only [Option.some.injEq] at hcon
          omega
        | false =>
          have h := listFilesLoop_abort_hits env reason sharedLink k fuel
            ⟨false, page.cursor, page.hasMore, page.entries, 1⟩ (by dsimp only; omega)
          rcases h with hmem | hcount
          · exact Or.inl (List.mem_cons.mpr (Or.inr (List.mem_cons.mpr (Or.inr hmem))))
          · refine Or.inr ?_
            rw [List.countP_cons, List.countP_cons]
            simp only [startsOp_started, startsOp_opCompleted]
            simp only at hcount
            simp
            omega
  · intro page hcur hres hk hfuel
    subst hcur
    subst hk
    unfold listFiles
    rw [hres]
    dsimp only
    cases fuel with
    | zero => exact absurd hfuel (by omega)
    | succ n =>
      rw [listFilesLoop]
      rw [if_pos (by decide)]

/-- A concrete backend environment used in witnesses and
counterexamples. -/
def lfEnvC : LFEnv :=
  { initResult := .ok { cursor := "cur0", hasMore := false, entries := [] },
    download := fun _ => .error "net",
    listContinue := fun _ => .ok { cursor := "cur1", hasMore := false, entries := [] },
    longpoll := fun _ => .ok { changes := false, backoff := none } }

/-- Witness for C6: in a resumed run the signal fires during the very
first wrapped operation, which is rejected with the reason; and in a
cursor-less run the signal firing during the initial listing leads to
the reason being raised at the loop top right after the listing
completes. -/
theorem listFiles_cancellation_witness :
    (((some "cur" : Option String) = none → 0 < 0) ∧
      (TraceItem.opAborted "stop" ∈ listFiles lfEnvC (some 0) "stop" "sl" (some "cur") 2 ∨
        (listFiles lfEnvC (some 0) "stop" "sl" (some "cur") 2).countP startsOp ≤ 0)) ∧
    ((none : Option String) = none ∧ lfEnvC.initResult =
        .ok { cursor := "cur0", hasMore := false, entries := [] } ∧ (0 : Nat) = 0 ∧
      0 < 1 ∧
      listFiles lfEnvC (some 0) "stop" "sl" none 1 =
        [.started (.initialList "sl"), .opCompleted, .threw "stop"]) :=
  ⟨⟨by simp, (listFiles_cancellation lfEnvC "stop" "sl" (some "cur") 2 0).2.2.1 (by simp)⟩,
    rfl, rfl, rfl, by decide,
    (listFiles_cancellation lfEnvC "stop" "sl" none 1 0).2.2.2
      { cursor := "cur0", hasMore := false, entries := [] } rfl rfl rfl (by decide)⟩

/-- C6 counterexample: the claim as stated asserts that firing the
signal while any backend call is outstanding — "including during the
initial listing issued at Start" — makes that pending operation fail
immediately with the signal's reason.  In this concrete cursor-less
run the signal fires while the initial listing (operation 0) is
outstanding, yet the trace records the listing completing normally
(`opCompleted`) with no rejected operation at all: the initial listing
is not wrapped in `signalPromise`, and the reason is only raised
afterwards at the top of the loop. -/
theorem listFiles_initial_listing_not_wrapped :
    listFiles lfEnvC (some 0) "stop" "sl" none 2 =
      [.started (.initialList "sl"), .opCompleted, .threw "stop"] ∧
    TraceItem.opAborted "stop" ∉ listFiles lfEnvC (some 0) "stop" "sl" none 2 := by
  constructor
  · rfl
  · intro hmem
    have h : listFiles lfEnvC (some 0) "stop" "sl" none 2 =
        [.started (.initialList "sl"), .opCompleted, .threw "stop"] := rfl
    rw [h] at hmem
    simp at hmem

end ByoStorage
